/-
Verification of the Dephaze-UDT phase-space resolution engine.

This file shallowly embeds the core of the repository in Lean 4:
Python floats become real numbers, stateful classes become structures
with explicit state passing, exceptions become `Except Unit`, and the
SHA-1/SHA-256 digests used for deterministic projection are abstracted
as function parameters (a cryptographic digest is modelled as an opaque
deterministic function; SHA-1 key hashing is modelled as the injective
composite-string encoding it digests).

Sources embedded here:
  core/phase.py         (PhaseCoord, Topology, PhaseMapper)
  core/edge_phase.py    (edge_phase)
  core/sigma.py         (SigmaHistory, SigmaState)
  core/lambda_engine.py (LambdaEngine.forward, _confidence, _atlas_pull_vector)
  core/godel_field.py   (RelationBridge, GodelField)
  core/dephaze.py       (gating and ingestion of relations)
-/
import Mathlib

open scoped Classical

noncomputable section

namespace Dephaze

/-! ### core/phase.py — PhaseCoord -/

/-- Phase-space coordinate `(theta, phi, rho)` (core/phase.py, `PhaseCoord`).
Python floats are modelled as real numbers. -/
structure PhaseCoord where
  theta : ℝ
  phi : ℝ
  rho : ℝ

/-- `PhaseCoord.clamp` (core/phase.py lines 60-65). -/
def PhaseCoord.clamp (c : PhaseCoord) : PhaseCoord :=
  { theta := max (-1) (min 1 c.theta)
    phi := max (-1) (min 1 c.phi)
    rho := max 0 (min 1 c.rho) }

/-- `PhaseCoord.distance_to` (core/phase.py lines 67-75): Euclidean distance. -/
def PhaseCoord.distance_to (a b : PhaseCoord) : ℝ :=
  Real.sqrt ((a.theta - b.theta) ^ 2 + (a.phi - b.phi) ^ 2 + (a.rho - b.rho) ^ 2)

/-- The documented global coordinate bounds: `theta, phi ∈ [-1,1]`, `rho ∈ [0,1]`. -/
def inBounds (c : PhaseCoord) : Prop :=
  -1 ≤ c.theta ∧ c.theta ≤ 1 ∧ -1 ≤ c.phi ∧ c.phi ≤ 1 ∧ 0 ≤ c.rho ∧ c.rho ≤ 1

/-! ### core/phase.py — Topology -/

/-- Axis-aligned region (core/phase.py, `TopologyRegion`). -/
structure TopologyRegion where
  name : String
  theta_range : ℝ × ℝ
  phi_range : ℝ × ℝ
  rho_range : ℝ × ℝ
  locked : Bool

/-- `Topology._inside` (core/phase.py lines 139-145). -/
def insideRegion (c : PhaseCoord) (r : TopologyRegion) : Prop :=
  r.theta_range.1 ≤ c.theta ∧ c.theta ≤ r.theta_range.2 ∧
  r.phi_range.1 ≤ c.phi ∧ c.phi ≤ r.phi_range.2 ∧
  r.rho_range.1 ≤ c.rho ∧ c.rho ≤ r.rho_range.2

/-- `Topology._push_1d` (core/phase.py lines 147-153). -/
def push1d (v : ℝ) (rng : ℝ × ℝ) : ℝ :=
  if v < rng.1 ∨ v > rng.2 then v
  else if v - rng.1 < rng.2 - v then rng.1 - 0.02 else rng.2 + 0.02

/-- One iteration of the region loop in `Topology.enforce`
(core/phase.py lines 128-136). -/
def enforceStep (c : PhaseCoord) (r : TopologyRegion) : PhaseCoord :=
  if r.locked ∧ insideRegion c r then
    (PhaseCoord.mk (push1d c.theta r.theta_range) (push1d c.phi r.phi_range)
      (push1d c.rho r.rho_range)).clamp
  else c

/-- `Topology.enforce` (core/phase.py lines 119-137): clamp, then push the
coordinate out of every locked region it falls inside, in region order. -/
def enforce (regions : List TopologyRegion) (coord : PhaseCoord) : PhaseCoord :=
  regions.foldl enforceStep coord.clamp

/-- The neutral region of `default_topology` (core/phase.py lines 162-168). -/
def originShrine : TopologyRegion :=
  { name := "origin_shrine"
    theta_range := (-0.05, 0.05)
    phi_range := (-0.05, 0.05)
    rho_range := (0.0, 0.15)
    locked := false }

/-- The locked region of `default_topology` (core/phase.py lines 169-175). -/
def rocksteeple : TopologyRegion :=
  { name := "rocksteeple_forbidden"
    theta_range := (0.20, 0.30)
    phi_range := (0.50, 0.70)
    rho_range := (0.70, 1.00)
    locked := true }

/-- `default_topology` (core/phase.py lines 156-177). -/
def defaultTopology : List TopologyRegion := [originShrine, rocksteeple]

/-- A coordinate lies inside some locked region of the topology. -/
def insideLocked (regions : List TopologyRegion) (c : PhaseCoord) : Prop :=
  ∃ r ∈ regions, r.locked = true ∧ insideRegion c r

/-! ### core/phase.py — PhaseMapper -/

/-- `PhaseMapper._normalize` (core/phase.py lines 198-202): trim, lowercase,
collapse internal whitespace runs to single spaces. -/
def normalizeText (text : String) : String :=
  " ".intercalate (((text.trim.toLower).split Char.isWhitespace).filter (· ≠ ""))

/-- `PhaseMapper` (core/phase.py). `hashToUnit` abstracts `_hash_to_unit`
(lines 204-211): the SHA-256 digest of the salted seed truncated to 16 hex
digits and reduced mod `10^12`, yielding a value in `[0,1)`. The digest is
opaque, so the reduction is modelled as an arbitrary deterministic function. -/
structure PhaseMapper where
  topology : List TopologyRegion
  hashToUnit : String → ℝ

/-- `PhaseMapper.text_to_phase` (core/phase.py lines 213-230). -/
def textToPhase (m : PhaseMapper) (text : String) : PhaseCoord :=
  let t := normalizeText text
  if t = "" then ⟨0, 0, 0⟩
  else
    let a := m.hashToUnit ("θ:" ++ t)
    let b := m.hashToUnit ("φ:" ++ t)
    let c := m.hashToUnit ("ρ:" ++ t)
    enforce m.topology ⟨a * 2 - 1, b * 2 - 1, c⟩

/-! ### core/sigma.py — SigmaHistory and SigmaState -/

/-- Python `round(x, n)`: rounding to `n` decimal places, modelled with the
mathematical half-up rounding (Python rounds ties to even; the two agree
except at exact half-ulp ties, which no statement below exercises). -/
def roundTo (n : ℕ) (x : ℝ) : ℝ :=
  (round (x * 10 ^ n) : ℤ) / 10 ^ n

/-- `SigmaHistory` (core/sigma.py lines 44-57): a bounded deque of coordinates,
oldest first. -/
structure SigmaHistory where
  maxlen : ℕ
  recent : List PhaseCoord

/-- `SigmaHistory.push` (core/sigma.py lines 59-62): evict the oldest entry
when at capacity, then append.  (For `maxlen = 0` Python's `popleft` on an
empty deque would raise; no caller constructs such a history and the eviction
is modelled as `tail`.) -/
def SigmaHistory.push (h : SigmaHistory) (phase : PhaseCoord) : SigmaHistory :=
  if h.recent.length ≥ h.maxlen then
    { h with recent := h.recent.tail ++ [phase] }
  else
    { h with recent := h.recent ++ [phase] }

/-- `SigmaHistory.centroid` (core/sigma.py lines 64-70): elementwise mean,
clamped; `none` on an empty history. -/
def SigmaHistory.centroid (h : SigmaHistory) : Option PhaseCoord :=
  if h.recent = [] then none
  else
    some (PhaseCoord.mk
      ((h.recent.map PhaseCoord.theta).sum / h.recent.length)
      ((h.recent.map PhaseCoord.phi).sum / h.recent.length)
      ((h.recent.map PhaseCoord.rho).sum / h.recent.length)).clamp

/-- `SigmaHistory.spread` (core/sigma.py lines 72-82): mean distance of the
stored coordinates from their centroid; `0` on an empty history. -/
def SigmaHistory.spread (h : SigmaHistory) : ℝ :=
  match h.centroid with
  | none => 0
  | some c => (h.recent.map (fun p => p.distance_to c)).sum / h.recent.length

/-- `SigmaState` (core/sigma.py lines 89-108): history plus coherence ratio. -/
structure SigmaState where
  history : SigmaHistory
  xi : ℝ

/-- `SigmaState.__post_init__` with the `xi = 1.0` field default. -/
def SigmaState.init (history_size : ℕ) : SigmaState :=
  { history := { maxlen := history_size, recent := [] }, xi := 1 }

/-- `SigmaState.current_phase` (core/sigma.py lines 114-121). -/
def SigmaState.currentPhase (s : SigmaState) : PhaseCoord :=
  match s.history.recent.getLast? with
  | none => ⟨0, 0, 0⟩
  | some p => p

/-- `SigmaState.update` (core/sigma.py lines 123-148): push, then recompute
`xi = 1 / (1 + spread)` from the post-push history (`_update_xi` ignores the
pre-push centroid it is passed). -/
def SigmaState.update (s : SigmaState) (new_phase : PhaseCoord) : SigmaState :=
  let h := s.history.push new_phase
  { history := h, xi := 1 / (1 + h.spread) }

/-- The audit snapshot of `SigmaState.audit` (core/sigma.py lines 154-164):
`xi` and `spread` are rounded to 6 decimal places. -/
structure SigmaAudit where
  history_len : ℕ
  xi : ℝ
  spread : ℝ
  current_phase : ℝ × ℝ × ℝ

/-- `SigmaState.audit` (core/sigma.py lines 154-164). -/
def SigmaState.audit (s : SigmaState) : SigmaAudit :=
  { history_len := s.history.recent.length
    xi := roundTo 6 s.xi
    spread := roundTo 6 s.history.spread
    current_phase := (s.currentPhase.theta, s.currentPhase.phi, s.currentPhase.rho) }

/-! ### core/edge_phase.py -/

/-- `edge_phase` (core/edge_phase.py lines 75-115).  `edgeHash` abstracts the
SHA-256 digest of the salted key: `_u16(h,0), _u16(h,2), _u16(h,4)` are the
first three big-endian 16-bit words of the digest, each in `0 .. 65535`; the
digest is opaque, so the word extraction is modelled as an arbitrary
deterministic function into `ℕ × ℕ × ℕ`. -/
def edgePhase (edgeHash : String → ℕ × ℕ × ℕ) (subject relation object_ : String) :
    PhaseCoord :=
  let s := subject.trim
  let r := relation.trim.toLower
  let o := object_.trim
  let w := edgeHash ("EDGE_PHASE_V1" ++ "|" ++ s ++ "|" ++ r ++ "|" ++ o)
  (PhaseCoord.mk ((w.1 : ℝ) / 65535 * 2 - 1) ((w.2.1 : ℝ) / 65535 * 2 - 1)
    ((w.2.2 : ℝ) / 65535)).clamp

/-! ### core/lambda_engine.py -/

/-- Displacement vector `(dx, dy, dz)` returned by a field. -/
abbrev Vec3 := ℝ × ℝ × ℝ

/-- `LambdaEngine.__init__` gain constants (core/lambda_engine.py lines 63-77). -/
structure LambdaEngine where
  pcm_gain : ℝ
  noise_damp : ℝ
  atlas_gain : ℝ
  godel_gain : ℝ
  edge_gain : ℝ

/-- The engine as constructed (all legacy init args are ignored). -/
def LambdaEngine.init : LambdaEngine :=
  { pcm_gain := 0.45, noise_damp := 0.85, atlas_gain := 0.35
    godel_gain := 0.60, edge_gain := 0.35 }

/-- `LambdaEngine._confidence` (core/lambda_engine.py lines 99-109). -/
def LambdaEngine.confidence (e : LambdaEngine) (xi spread : ℝ) : ℝ :=
  roundTo 4 ((0.5 + 0.5 * Real.tanh (2.5 * (xi - 0.5))) *
    Real.exp (-e.noise_damp * max 0 spread))

/-- A duck-typed edge/Gödel field object as seen by `LambdaEngine.forward`:
it may or may not expose a `resultant_vector` method (the `hasattr` check),
and a call to that method may raise (`Except.error`). -/
structure FieldObj where
  resultant_vector : Option (PhaseCoord → Except Unit Vec3)

/-- A duck-typed atlas object as seen by `LambdaEngine._atlas_pull_vector`:
the three supported interfaces, each optional (`hasattr`), each fallible.
`as_lambda_payload` yields `some (theta, phi, rho)` when it returns a dict
holding all three keys and `none` otherwise; `nearest` yields the nearest
node's `(theta, phi, rho)` or `none`. -/
structure AtlasObj where
  pull_vector : Option (PhaseCoord → Except Unit Vec3)
  as_lambda_payload : Option (PhaseCoord → Except Unit (Option Vec3))
  nearest : Option (PhaseCoord → Except Unit (Option Vec3))

/-- `LambdaEngine._atlas_pull_vector` (core/lambda_engine.py lines 131-174).
The Atlas-v2 branch (lines 143-146) calls `atlas.pull_vector` outside any
`try`/`except`, so an exception there propagates (`Except.error`); the
`as_lambda_payload` and `nearest` branches swallow exceptions and fall
through. -/
def atlasPullVector (atlas : AtlasObj) (start : PhaseCoord) :
    Except Unit (Option Vec3) :=
  match atlas.pull_vector with
  | some f => (f start).map some
  | none =>
    let fromPayload : Option Vec3 :=
      match atlas.as_lambda_payload with
      | some g =>
        match g start with
        | .ok (some p) =>
          some (p.1 - start.theta, p.2.1 - start.phi, p.2.2 - start.rho)
        | _ => none
      | none => none
    match fromPayload with
    | some v => .ok (some v)
    | none =>
      match atlas.nearest with
      | some g =>
        match g start with
        | .ok (some n) =>
          .ok (some (n.1 - start.theta, n.2.1 - start.phi, n.2.2 - start.rho))
        | _ => .ok none
      | none => .ok none

/-- Structured output of a Lambda decision (`LambdaResult`,
core/lambda_engine.py lines 33-41).  `mode` keeps the active influence tags
as a list; the Python code stores them joined with `" + "`. -/
structure LambdaResult where
  mode : List String
  confidence : ℝ
  xi : ℝ
  chosen : PhaseCoord

/-- `LambdaEngine.forward` (core/lambda_engine.py lines 180-252), with
`sigma` a `SigmaState` as passed by the orchestrator (core/dephaze.py
line 169).  Notes tied to the source:
  * `start` is `sigma.current_phase()` clamped (lines 199-202; the
    fallback to `imago_phase` is unreachable for a `SigmaState`).
  * `spread = float(getattr(sigma, "spread", 0.0))` (line 205): `SigmaState`
    (core/sigma.py) defines no `spread` attribute, so the default `0.0` is
    always taken.
  * the edge/Gödel contributions swallow exceptions (lines 214-234), while
    an exception escaping `_atlas_pull_vector` propagates out of `forward`
    (line 238 has no `try`/`except`), modelled by the `Except` bind. -/
def LambdaEngine.forward (e : LambdaEngine) (sigma : SigmaState)
    (imago_phase : PhaseCoord) (atlas : Option AtlasObj)
    (godel_field : Option FieldObj) (edge_field : Option FieldObj) :
    Except Unit LambdaResult :=
  let start := sigma.currentPhase.clamp
  let xi := sigma.xi
  let spread : ℝ := 0
  -- PCM: pull toward Imago
  let t1 := start.theta + e.pcm_gain * (imago_phase.theta - start.theta)
  let p1 := start.phi + e.pcm_gain * (imago_phase.phi - start.phi)
  let r1 := start.rho + e.pcm_gain * (imago_phase.rho - start.rho)
  -- EDGE field (optional)
  let edgeHit : Option Vec3 :=
    match edge_field with
    | some fo =>
      match fo.resultant_vector with
      | some g => match g start with | .ok v => some v | .error _ => none
      | none => none
    | none => none
  let t2 := t1 + (match edgeHit with | some v => e.edge_gain * v.1 | none => 0)
  let p2 := p1 + (match edgeHit with | some v => e.edge_gain * v.2.1 | none => 0)
  let r2 := r1 + (match edgeHit with | some v => e.edge_gain * v.2.2 | none => 0)
  -- GODEL field (optional)
  let godelHit : Option Vec3 :=
    match godel_field with
    | some fo =>
      match fo.resultant_vector with
      | some g => match g start with | .ok v => some v | .error _ => none
      | none => none
    | none => none
  let t3 := t2 + (match godelHit with | some v => e.godel_gain * v.1 | none => 0)
  let p3 := p2 + (match godelHit with | some v => e.godel_gain * v.2.1 | none => 0)
  let r3 := r2 + (match godelHit with | some v => e.godel_gain * v.2.2 | none => 0)
  -- ATLAS field (optional; an exception from a v2 `pull_vector` propagates)
  let atlasRes : Except Unit (Option Vec3) :=
    match atlas with
    | some a => atlasPullVector a start
    | none => .ok none
  match atlasRes with
  | .error err => .error err
  | .ok atlasHit =>
    let t4 := t3 + (match atlasHit with | some v => e.atlas_gain * v.1 | none => 0)
    let p4 := p3 + (match atlasHit with | some v => e.atlas_gain * v.2.1 | none => 0)
    let r4 := r3 + (match atlasHit with | some v => e.atlas_gain * v.2.2 | none => 0)
    .ok
      { mode := ["POOR", "PCM"] ++
          (match edgeHit with | some _ => ["EDGE"] | none => []) ++
          (match godelHit with | some _ => ["GODEL_FIELD"] | none => []) ++
          (match atlasHit with | some _ => ["ATLAS"] | none => [])
        confidence := e.confidence xi spread
        xi := roundTo 4 xi
        chosen := (PhaseCoord.mk t4 p4 r4).clamp }

/-! ### core/godel_field.py -/

/-- `RelationBridge` (core/godel_field.py lines 44-64). -/
structure RelationBridge where
  subject : String
  relation : String
  object_ : String
  s_phase : PhaseCoord
  o_phase : PhaseCoord
  e_phase : PhaseCoord
  strength : ℝ
  origin : String

/-- `GodelField._stable_key` (core/godel_field.py lines 127-135): the SHA-1
hex digest of `f"{origin}|{subject}|{relation.lower()}|{object_}"`.  SHA-1 is
collision-free on the inputs that occur, so the digest is modelled as the
injective composite string it hashes. -/
def stableKey (subject relation object_ origin : String) : String :=
  origin ++ "|" ++ subject ++ "|" ++ relation.toLower ++ "|" ++ object_

/-- `GodelField` (core/godel_field.py lines 71-106): gain parameters,
capacity bound, and the ordered bridge store. -/
structure GodelField where
  alpha_bridge : ℝ
  alpha_edge : ℝ
  bridge_gain : ℝ
  edge_gain : ℝ
  max_bridges : ℕ
  bridges : List RelationBridge

/-- `GodelField.__init__` defaults (core/godel_field.py lines 90-106). -/
def GodelField.init : GodelField :=
  { alpha_bridge := 3.0, alpha_edge := 4.5, bridge_gain := 0.70
    edge_gain := 1.00, max_bridges := 4096, bridges := [] }

/-- Python `list.sort(key=strength, reverse=True)`: stable descending sort
by strength (core/godel_field.py line 196). -/
def sortByStrengthDesc (l : List RelationBridge) : List RelationBridge :=
  l.mergeSort (fun a b => decide (b.strength ≤ a.strength))

/-- The capacity clamp of `add_relation` (core/godel_field.py lines 194-197):
sort descending by strength and truncate when over capacity. -/
def capClamp (maxB : ℕ) (l : List RelationBridge) : List RelationBridge :=
  if l.length > maxB then (sortByStrengthDesc l).take maxB else l

/-- The bridge record built by `add_relation` (core/godel_field.py lines
163-186) from already-trimmed/lowercased parts. -/
def mkBridge (m : PhaseMapper) (eh : String → ℕ × ℕ × ℕ)
    (s r o : String) (strength : ℝ) (origin : String) : RelationBridge :=
  { subject := s, relation := r, object_ := o
    s_phase := textToPhase m s
    o_phase := textToPhase m o
    e_phase := (edgePhase eh s r o).clamp
    strength := max 0 strength
    origin := origin }

/-- `GodelField.add_relation` (core/godel_field.py lines 141-197): trim and
lowercase, reject empty parts, insert new or replace-if-stronger by stable
key, then apply the capacity clamp. -/
def GodelField.addRelation (f : GodelField) (m : PhaseMapper)
    (eh : String → ℕ × ℕ × ℕ) (subject relation object_ : String)
    (strength : ℝ) (origin : String) : GodelField :=
  let s := subject.trim
  let r := relation.trim.toLower
  let o := object_.trim
  if s = "" ∨ r = "" ∨ o = "" then f
  else
    let key := stableKey s r o origin
    let rb := mkBridge m eh s r o strength origin
    let bridges1 :=
      match f.bridges.findIdx? (fun b =>
          stableKey b.subject b.relation b.object_ b.origin = key) with
      | none => f.bridges ++ [rb]
      | some i =>
        if rb.strength > ((f.bridges.get? i).getD rb).strength then
          f.bridges.set i rb
        else f.bridges
    { f with bridges := capClamp f.max_bridges bridges1 }

/-- The `strong` selection of `sample_attractors` (core/godel_field.py lines
231-233): the `min (length, 64)` strongest bridges. -/
def strongBridges (f : GodelField) : List RelationBridge :=
  (sortByStrengthDesc f.bridges).take (min f.bridges.length 64)

/-- The pick loop of `sample_attractors` (core/godel_field.py lines 239-243):
`for i in range(k): picks.append(strong[h[i] % len(strong)].e_phase)`.
`digest[i]?` is `h[i]`; reading past the end of the 32-byte digest is the
`IndexError` case, modelled as `Except.error`. -/
def samplePicks (strong : List RelationBridge) (digest : List ℕ) :
    ℕ → ℕ → Except Unit (List PhaseCoord)
  | _, 0 => .ok []
  | i, n + 1 =>
    match digest[i]? with
    | none => .error ()
    | some byte =>
      match strong[byte % strong.length]? with
      | none => .error ()
      | some b => (samplePicks strong digest (i + 1) n).map (b.e_phase :: ·)

/-- `GodelField.sample_attractors` (core/godel_field.py lines 223-244).
`digest` abstracts `hashlib.sha256((seed_key or "seed")...).digest()`,
a 32-byte string; `k` is the requested count. -/
def GodelField.sampleAttractors (f : GodelField) (digest : List ℕ) (k : ℤ) :
    Except Unit (List PhaseCoord) :=
  if f.bridges = [] ∨ k ≤ 0 then .ok []
  else samplePicks (strongBridges f) digest 0 k.toNat

/-! ### core/dephaze.py — gating and ingestion -/

/-- A relation triple as produced by the extraction collaborator
(`Relation` in core/godel.py; opaque strings). -/
structure Relation where
  subject : String
  relation : String
  object_ : String

/-- The Gödel gating parameters of `DephazeUDT.__init__`
(core/dephaze.py lines 93-98 and 135-140). -/
structure DephazeConfig where
  godel_user_weight : ℝ
  godel_wiki_weight : ℝ
  godel_global_weight : ℝ
  godel_gate_min_xi : ℝ
  godel_gate_max_spread : ℝ

/-- The constructor defaults (core/dephaze.py lines 93-98). -/
def DephazeConfig.default : DephazeConfig :=
  { godel_user_weight := 0.60, godel_wiki_weight := 0.85
    godel_global_weight := 0.50, godel_gate_min_xi := 0.62
    godel_gate_max_spread := 0.80 }

/-- `DephazeUDT._gate_ok` (core/dephaze.py lines 235-238); the audit snapshot
always carries `xi` and `spread`, so the `dict.get` defaults never apply. -/
def gateOk (cfg : DephazeConfig) (a : SigmaAudit) : Prop :=
  a.xi ≥ cfg.godel_gate_min_xi ∧ a.spread ≤ cfg.godel_gate_max_spread

/-- `DephazeUDT._rel_strength` (core/dephaze.py lines 240-244). -/
def relStrength (base_weight : ℝ) (a : SigmaAudit) : ℝ :=
  max 0 (base_weight * a.xi * Real.exp (-0.85 * max 0 a.spread))

/-- The `push` helper of `_ingest_godel_field` (core/dephaze.py lines
299-308): add each of the first `limit` relations with the given strength
and origin, lowercasing the relation label. -/
def pushRelations (m : PhaseMapper) (eh : String → ℕ × ℕ × ℕ)
    (f : GodelField) (relations : List Relation) (strength : ℝ)
    (origin : String) (limit : ℕ) : GodelField :=
  (relations.take limit).foldl
    (fun f r =>
      f.addRelation m eh r.subject (r.relation.trim.toLower) r.object_
        strength origin)
    f

/-- `DephazeUDT._ingest_godel_field` (core/dephaze.py lines 288-317):
no ingestion unless the gate passes; otherwise push user, wiki and (when
non-empty) global relations with their respective damped strengths. -/
def ingestGodelField (cfg : DephazeConfig) (m : PhaseMapper)
    (eh : String → ℕ × ℕ × ℕ) (f : GodelField) (a : SigmaAudit)
    (user_rel wiki_rel global_rel : List Relation) : GodelField :=
  if ¬ gateOk cfg a then f
  else
    let s_user := relStrength cfg.godel_user_weight a
    let s_wiki := relStrength cfg.godel_wiki_weight a
    let s_glob := relStrength cfg.godel_global_weight a
    let f1 := pushRelations m eh f user_rel s_user "user" 8
    let f2 := pushRelations m eh f1 wiki_rel s_wiki "wiki" 10
    if global_rel ≠ [] then pushRelations m eh f2 global_rel s_glob "global" 6
    else f2

/-! ### core/dephaze.py — how the orchestrator wires the Λ engine -/

/-- The relation field as the Λ engine sees it: `GodelField`
(core/godel_field.py) defines **no** `resultant_vector` method, so the
`hasattr(godel_field, "resultant_vector")` check in `forward`
(core/lambda_engine.py line 226) always fails for it. -/
def godelFieldAsLambdaField (_f : GodelField) : FieldObj :=
  { resultant_vector := none }

/-- The Λ call made by `DephazeUDT.forward` (core/dephaze.py lines 167-173):
`godel_field` is the orchestrator's `GodelField`, and `edge_field` is the
always-`None` placeholder set in `__init__` (line 133). -/
def orchestratorLambdaCall (e : LambdaEngine) (sigma : SigmaState)
    (imago : PhaseCoord) (atlas : Option AtlasObj) (gf : GodelField) :
    Except Unit LambdaResult :=
  e.forward sigma imago atlas (some (godelFieldAsLambdaField gf)) none

/-! ### Derived notions for the capacity analysis of `add_relation` -/

/-- The stable key of a stored bridge, as recomputed by the lookup loop of
`add_relation` (core/godel_field.py line 173). -/
def bridgeKey (b : RelationBridge) : String :=
  stableKey b.subject b.relation b.object_ b.origin

/-- Number of bridges in `P` strictly stronger than `b`. -/
def strengthRank (P : List RelationBridge) (b : RelationBridge) : ℕ :=
  P.countP (fun y => decide (b.strength < y.strength))

/-- The bridges of `P` that survive capacity eviction: those with fewer than
`maxB` strictly stronger competitors. -/
def topFilter (maxB : ℕ) (P : List RelationBridge) : List RelationBridge :=
  P.filter (fun b => decide (strengthRank P b < maxB))

/-- The stored strengths are pairwise distinct. -/
def nodupStr (l : List RelationBridge) : Prop :=
  (l.map RelationBridge.strength).Nodup

/-- One insertion request: the arguments of one `add_relation` call. -/
structure RelSpec where
  subject : String
  relation : String
  object_ : String
  strength : ℝ
  origin : String

/-- The stable key `add_relation` computes for a request. -/
def specKey (sp : RelSpec) : String :=
  stableKey sp.subject.trim sp.relation.trim.toLower sp.object_.trim sp.origin

/-- The bridge record `add_relation` builds for a request. -/
def specBridge (m : PhaseMapper) (eh : String → ℕ × ℕ × ℕ)
    (sp : RelSpec) : RelationBridge :=
  mkBridge m eh sp.subject.trim sp.relation.trim.toLower sp.object_.trim
    sp.strength sp.origin

/-- One `add_relation` call with the request's arguments. -/
def addSpec (m : PhaseMapper) (eh : String → ℕ × ℕ × ℕ)
    (f : GodelField) (sp : RelSpec) : GodelField :=
  f.addRelation m eh sp.subject sp.relation sp.object_ sp.strength sp.origin

/-! ### The spec's confidence formula (for comparison with the code) -/

/-- Modelled from the spec: the confidence a resolution is claimed to
return — `round((0.5 + 0.5·tanh(2.5·(xi − 0.5))) · exp(−damping·max(0,
spread)), 4)` with `xi` the memory's coherence ratio and `spread` the
memory's dispersion at resolution time.  Stated from the spec's words to be
compared against what `LambdaEngine.forward` actually computes. -/
def specClaimedConfidence (damping : ℝ) (s : SigmaState) : ℝ :=
  roundTo 4 ((0.5 + 0.5 * Real.tanh (2.5 * (s.xi - 0.5))) *
    Real.exp (-damping * max 0 s.history.spread))

/-! ### Helper lemmas -/

theorem inBounds_clamp (c : PhaseCoord) : inBounds c.clamp := by
  unfold inBounds PhaseCoord.clamp
  refine ⟨le_max_left _ _, max_le (by norm_num) (min_le_left _ _),
    le_max_left _ _, max_le (by norm_num) (min_le_left _ _),
    le_max_left _ _, max_le (by norm_num) (min_le_left _ _)⟩

theorem clamp_eq_self {c : PhaseCoord} (h : inBounds c) : c.clamp = c := by
  obtain ⟨h1, h2, h3, h4, h5, h6⟩ := h
  unfold PhaseCoord.clamp
  have e1 : min 1 c.theta = c.theta := min_eq_right h2
  have e2 : min 1 c.phi = c.phi := min_eq_right h4
  have e3 : min 1 c.rho = c.rho := min_eq_right h6
  rw [e1, e2, e3, max_eq_right h1, max_eq_right h3, max_eq_right h5]

theorem distance_to_self (p : PhaseCoord) : p.distance_to p = 0 := by
  unfold PhaseCoord.distance_to
  simp [sub_self]

/-! ### Claim C5 — coherence-memory invariant -/

/-- **C5.** After every `update(coordinate)`, `xi = 1 / (1 + spread)` where
`spread` is computed on the post-push window; in particular `xi` is exactly
`1` directly after the first push into an empty memory (for an in-range
coordinate, as all coordinates of the data model are). -/
theorem C5_xi_invariant (s : SigmaState) (p : PhaseCoord) :
    (s.update p).xi = 1 / (1 + (s.update p).history.spread) ∧
    (s.history.recent = [] → inBounds p → (s.update p).xi = 1) := by
  constructor
  · rfl
  · intro hemp hb
    have hrec : (s.history.push p).recent = [p] := by
      unfold SigmaHistory.push
      split <;> simp [hemp]
    have hcent : (s.history.push p).centroid = some p := by
      unfold SigmaHistory.centroid
      rw [hrec]
      rw [if_neg (by simp)]
      simp only [List.map_cons, List.map_nil, List.sum_cons, List.sum_nil,
        add_zero, List.length_cons, List.length_nil, zero_add, Nat.cast_one,
        div_one]
      show some p.clamp = some p
      rw [clamp_eq_self hb]
    have hspread : (s.history.push p).spread = 0 := by
      unfold SigmaHistory.spread
      rw [hcent, hrec]
      simp [distance_to_self]
    show 1 / (1 + (s.history.push p).spread) = 1
    rw [hspread]; norm_num

/-- Witness for C5 at the empty memory and the origin coordinate. -/
theorem C5_xi_invariant_witness :
    ((SigmaState.init 32).history.recent = [] ∧ inBounds ⟨0, 0, 0⟩) ∧
    ((SigmaState.init 32).update ⟨0, 0, 0⟩).xi = 1 := by
  have h1 : (SigmaState.init 32).history.recent = [] := rfl
  have h2 : inBounds (⟨0, 0, 0⟩ : PhaseCoord) := by
    unfold inBounds; norm_num
  exact ⟨⟨h1, h2⟩, (C5_xi_invariant (SigmaState.init 32) ⟨0, 0, 0⟩).2 h1 h2⟩

/-! ### Claim C10 — relation and edge fields never pull -/

/-- **C10.** In the engine as wired by the orchestrator (`GodelField` has no
`resultant_vector`, `edge_field` is always `None`), the mode tags of a
resolution never contain `GODEL_FIELD` or `EDGE`, and the outcome is
independent of the relation field's contents. -/
theorem C10_godel_edge_inert (e : LambdaEngine) (s : SigmaState)
    (imago : PhaseCoord) (atlas : Option AtlasObj) (gf gf' : GodelField)
    (r : LambdaResult)
    (h : orchestratorLambdaCall e s imago atlas gf = .ok r) :
    "GODEL_FIELD" ∉ r.mode ∧ "EDGE" ∉ r.mode ∧
    orchestratorLambdaCall e s imago atlas gf =
      orchestratorLambdaCall e s imago atlas gf' := by
  refine ⟨?_, ?_, rfl⟩ <;>
  · unfold orchestratorLambdaCall LambdaEngine.forward godelFieldAsLambdaField at h
    dsimp only at h
    split at h
    · exact Except.noConfusion h
    · rename_i hit _
      injection h with h'
      subst h'
      dsimp only
      cases hit <;> simp

/-- Witness for C10 at a trivial concrete call. -/
theorem C10_godel_edge_inert_witness :
    (orchestratorLambdaCall LambdaEngine.init (SigmaState.init 32) ⟨0, 0, 0⟩
        none GodelField.init =
      Except.ok
        { mode := ["POOR", "PCM"]
          confidence := LambdaEngine.init.confidence 1 0
          xi := roundTo 4 1
          chosen := (PhaseCoord.mk 0 0 0).clamp.clamp }) ∧
    "GODEL_FIELD" ∉ ["POOR", "PCM"] := by
  have h : orchestratorLambdaCall LambdaEngine.init (SigmaState.init 32)
      ⟨0, 0, 0⟩ none GodelField.init =
      Except.ok
        { mode := ["POOR", "PCM"]
          confidence := LambdaEngine.init.confidence 1 0
          xi := roundTo 4 1
          chosen := (PhaseCoord.mk 0 0 0).clamp.clamp } := by
    unfold orchestratorLambdaCall LambdaEngine.forward godelFieldAsLambdaField
    dsimp only
    congr 1
    have hcur : (SigmaState.init 32).currentPhase = ⟨0, 0, 0⟩ := rfl
    rw [hcur]
    have hcl : (PhaseCoord.mk 0 0 0).clamp = ⟨0, 0, 0⟩ :=
      clamp_eq_self (by unfold inBounds; norm_num)
    congr 1
    rw [hcl]
    ring_nf
  exact ⟨h, ((C10_godel_edge_inert LambdaEngine.init (SigmaState.init 32)
    ⟨0, 0, 0⟩ none GodelField.init GodelField.init _ h).1)⟩

/-! ### Claim C2 — the resolved coordinate is only clamped, not
topology-enforced -/

/-- Shared evaluation: the Λ engine at the trivial call (empty memory,
origin Imago, no optional fields). -/
theorem forward_init_trivial :
    LambdaEngine.init.forward (SigmaState.init 32) ⟨0, 0, 0⟩ none none none =
      Except.ok
        { mode := ["POOR", "PCM"]
          confidence := LambdaEngine.init.confidence 1 0
          xi := roundTo 4 1
          chosen := (PhaseCoord.mk 0 0 0).clamp } := by
  unfold LambdaEngine.forward
  dsimp only
  have hcur : (SigmaState.init 32).currentPhase = ⟨0, 0, 0⟩ := rfl
  rw [hcur]
  have hcl : (PhaseCoord.mk 0 0 0).clamp = ⟨0, 0, 0⟩ :=
    clamp_eq_self (by unfold inBounds; norm_num)
  rw [hcl]
  have harg : (PhaseCoord.mk
      (0 + LambdaEngine.init.pcm_gain * (0 - 0) + 0 + 0 + 0)
      (0 + LambdaEngine.init.pcm_gain * (0 - 0) + 0 + 0 + 0)
      (0 + LambdaEngine.init.pcm_gain * (0 - 0) + 0 + 0 + 0)) =
      PhaseCoord.mk 0 0 0 := by
    simp only [PhaseCoord.mk.injEq]
    norm_num
  rw [harg]
  simp only [Except.ok.injEq, LambdaResult.mk.injEq, List.append_nil]
  exact ⟨trivial, rfl, rfl, hcl⟩

/-- **C2, counterexample.**  A resolution whose memory sits inside the locked
`rocksteeple_forbidden` region and whose Imago equals that point resolves to
that very point: the returned coordinate lies inside a locked region of the
default topology, because `forward` only clamps (core/lambda_engine.py line
245) and never calls `Topology.enforce`. -/
theorem C2_counterexample :
    ((LambdaEngine.init.forward ((SigmaState.init 64).update ⟨0.25, 0.6, 0.9⟩)
        ⟨0.25, 0.6, 0.9⟩ none none none).map LambdaResult.chosen =
      Except.ok ⟨0.25, 0.6, 0.9⟩) ∧
    insideLocked defaultTopology ⟨0.25, 0.6, 0.9⟩ := by
  constructor
  · have hb : inBounds (⟨0.25, 0.6, 0.9⟩ : PhaseCoord) := by
      unfold inBounds; norm_num
    have hcur : ((SigmaState.init 64).update ⟨0.25, 0.6, 0.9⟩).currentPhase =
        ⟨0.25, 0.6, 0.9⟩ := rfl
    unfold LambdaEngine.forward
    dsimp only
    rw [hcur, clamp_eq_self hb]
    have : (PhaseCoord.mk (0.25 + LambdaEngine.init.pcm_gain * (0.25 - 0.25) + 0 + 0 + 0)
        (0.6 + LambdaEngine.init.pcm_gain * (0.6 - 0.6) + 0 + 0 + 0)
        (0.9 + LambdaEngine.init.pcm_gain * (0.9 - 0.9) + 0 + 0 + 0)) =
        (⟨0.25, 0.6, 0.9⟩ : PhaseCoord) := by
      simp only [PhaseCoord.mk.injEq]
      norm_num
    rw [this, clamp_eq_self hb]
    rfl
  · exact ⟨rocksteeple, by simp [defaultTopology], rfl, by
      unfold insideRegion rocksteeple; norm_num⟩

/-- **C2, amended.**  For every resolution call the returned coordinate is
clamped to the global bounds (but it is *not* topology-enforced: `forward`
never applies `Topology.enforce`, so it can lie inside a locked region, as
the counterexample shows). -/
theorem C2_chosen_clamped (e : LambdaEngine) (s : SigmaState)
    (imago : PhaseCoord) (atlas : Option AtlasObj)
    (godel edge : Option FieldObj) (r : LambdaResult)
    (h : e.forward s imago atlas godel edge = .ok r) :
    inBounds r.chosen := by
  unfold LambdaEngine.forward at h
  dsimp only at h
  split at h
  · exact Except.noConfusion h
  · injection h with h'
    subst h'
    exact inBounds_clamp _

/-- Witness for C2 (amended) at the trivial call. -/
theorem C2_chosen_clamped_witness :
    (LambdaEngine.init.forward (SigmaState.init 32) ⟨0, 0, 0⟩ none none none =
      Except.ok
        { mode := ["POOR", "PCM"]
          confidence := LambdaEngine.init.confidence 1 0
          xi := roundTo 4 1
          chosen := (PhaseCoord.mk 0 0 0).clamp }) ∧
    inBounds (PhaseCoord.mk 0 0 0).clamp :=
  ⟨forward_init_trivial,
    C2_chosen_clamped LambdaEngine.init (SigmaState.init 32) ⟨0, 0, 0⟩
      none none none _ forward_init_trivial⟩

/-! ### Claim C1 — the dispersion never reaches the confidence damping -/

theorem roundTo4_half : roundTo 4 (1 / 2) = 1 / 2 := by
  unfold roundTo
  have h5 : (1 / 2 : ℝ) * 10 ^ 4 = ((5000 : ℤ) : ℝ) := by norm_num
  rw [h5, round_intCast]
  norm_num

theorem roundTo4_lt_half {x : ℝ} (h : x < 0.4) : roundTo 4 x < 1 / 2 := by
  unfold roundTo
  have h1 : round (x * 10 ^ 4) ≤ 4000 := by
    rw [round_eq]
    have h2 : x * 10 ^ 4 + 1 / 2 ≤ (4000 : ℝ) + 1 / 2 := by nlinarith
    calc ⌊x * 10 ^ 4 + 1 / 2⌋ ≤ ⌊(4000 : ℝ) + 1 / 2⌋ := Int.floor_le_floor h2
      _ = 4000 := by norm_num
  have h3 : ((round (x * 10 ^ 4) : ℤ) : ℝ) ≤ 4000 := by exact_mod_cast h1
  calc ((round (x * 10 ^ 4) : ℤ) : ℝ) / 10 ^ 4 ≤ 4000 / 10 ^ 4 := by
        gcongr
    _ < 1 / 2 := by norm_num

theorem exp_neg_085_lt : Real.exp (-(0.85 : ℝ)) < 0.8 := by
  rw [Real.exp_neg]
  have h1 : (1.85 : ℝ) ≤ Real.exp 0.85 := by
    have := Real.add_one_le_exp (0.85 : ℝ)
    linarith
  have h2 : (0 : ℝ) < 1.85 := by norm_num
  have h3 : (Real.exp 0.85)⁻¹ ≤ (1.85 : ℝ)⁻¹ := by
    apply inv_anti₀ h2 h1
  calc (Real.exp 0.85)⁻¹ ≤ (1.85 : ℝ)⁻¹ := h3
    _ < 0.8 := by norm_num

/-- Evaluation of the coherence memory holding the two points
`(-1,0,0)` and `(1,0,0)`: their centroid is the origin, the dispersion is
exactly `1` and hence `xi = 1/2`. -/
theorem sigmaTwo_spread_xi :
    ((((SigmaState.init 32).update ⟨-1, 0, 0⟩).update ⟨1, 0, 0⟩)).history.spread = 1 ∧
    ((((SigmaState.init 32).update ⟨-1, 0, 0⟩).update ⟨1, 0, 0⟩)).xi = 1 / 2 := by
  have hh : ((((SigmaState.init 32).update ⟨-1, 0, 0⟩).update ⟨1, 0, 0⟩)).history =
      ⟨32, [⟨-1, 0, 0⟩, ⟨1, 0, 0⟩]⟩ := by
    show ((SigmaState.init 32).history.push ⟨-1, 0, 0⟩).push ⟨1, 0, 0⟩ = _
    unfold SigmaState.init SigmaHistory.push
    simp
  have hcent : (SigmaHistory.mk 32 [⟨-1, 0, 0⟩, ⟨1, 0, 0⟩]).centroid =
      some ⟨0, 0, 0⟩ := by
    unfold SigmaHistory.centroid
    rw [if_neg (by simp)]
    simp only [List.map_cons, List.map_nil, List.sum_cons, List.sum_nil,
      List.length_cons, List.length_nil]
    congr 1
    have e1 : ((-1 : ℝ) + (1 + 0)) / ((0 + 1 + 1 : ℕ) : ℝ) = 0 := by norm_num
    have e2 : ((0 : ℝ) + (0 + 0)) / ((0 + 1 + 1 : ℕ) : ℝ) = 0 := by norm_num
    rw [e1, e2]
    exact clamp_eq_self (by unfold inBounds; norm_num)
  have hda : (⟨-1, 0, 0⟩ : PhaseCoord).distance_to ⟨0, 0, 0⟩ = 1 := by
    unfold PhaseCoord.distance_to
    have : ((-1 : ℝ) - 0) ^ 2 + ((0 : ℝ) - 0) ^ 2 + ((0 : ℝ) - 0) ^ 2 = 1 := by
      norm_num
    rw [this, Real.sqrt_one]
  have hdb : (⟨1, 0, 0⟩ : PhaseCoord).distance_to ⟨0, 0, 0⟩ = 1 := by
    unfold PhaseCoord.distance_to
    have : ((1 : ℝ) - 0) ^ 2 + ((0 : ℝ) - 0) ^ 2 + ((0 : ℝ) - 0) ^ 2 = 1 := by
      norm_num
    rw [this, Real.sqrt_one]
  have hspread : (SigmaHistory.mk 32 [⟨-1, 0, 0⟩, ⟨1, 0, 0⟩]).spread = 1 := by
    unfold SigmaHistory.spread
    rw [hcent]
    simp only [List.map_cons, List.map_nil, List.sum_cons, List.sum_nil,
      List.length_cons, List.length_nil, hda, hdb]
    norm_num
  refine ⟨by rw [hh]; exact hspread, ?_⟩
  have hxi : (((SigmaState.init 32).update ⟨-1, 0, 0⟩).update ⟨1, 0, 0⟩).xi =
      1 / (1 +
        ((((SigmaState.init 32).update ⟨-1, 0, 0⟩).update ⟨1, 0, 0⟩)).history.spread) :=
    rfl
  rw [hxi, hh, hspread]
  norm_num

/-- **C1, counterexample.**  With the reachable memory holding `(-1,0,0)`
and `(1,0,0)` (so `xi = 1/2`, dispersion `1`), a resolution returns
confidence exactly `1/2`, while the spec's formula — damping by
`exp(−0.85·max(0, spread))` with `spread` the memory's dispersion — yields a
value strictly below `1/2`: `forward` reads `getattr(sigma, "spread", 0.0)`
and `SigmaState` has no `spread` attribute, so the dispersion never damps
the confidence. -/
theorem C1_counterexample :
    ((LambdaEngine.init.forward
        (((SigmaState.init 32).update ⟨-1, 0, 0⟩).update ⟨1, 0, 0⟩)
        ⟨1, 0, 0⟩ none none none).map LambdaResult.confidence =
      Except.ok (1 / 2)) ∧
    specClaimedConfidence 0.85
      (((SigmaState.init 32).update ⟨-1, 0, 0⟩).update ⟨1, 0, 0⟩) < 1 / 2 := by
  obtain ⟨hspread, hxi⟩ := sigmaTwo_spread_xi
  have hbase : (0.5 : ℝ) + 0.5 * Real.tanh (2.5 * (1 / 2 - 0.5)) = 1 / 2 := by
    have : (2.5 : ℝ) * (1 / 2 - 0.5) = 0 := by norm_num
    rw [this, Real.tanh_zero]
    norm_num
  constructor
  · unfold LambdaEngine.forward
    dsimp only
    show Except.ok (LambdaEngine.init.confidence
      (((SigmaState.init 32).update ⟨-1, 0, 0⟩).update ⟨1, 0, 0⟩).xi 0) =
      Except.ok (1 / 2)
    rw [hxi]
    unfold LambdaEngine.confidence
    rw [max_self, mul_zero, Real.exp_zero, mul_one, hbase]
    rw [roundTo4_half]
  · unfold specClaimedConfidence
    rw [hxi, hspread]
    have hm : max (0 : ℝ) 1 = 1 := max_eq_right (by norm_num)
    rw [hm, hbase]
    apply roundTo4_lt_half
    have he : Real.exp (-(0.85 : ℝ) * 1) < 0.8 := by
      rw [mul_one]; exact exp_neg_085_lt
    have hp : (0 : ℝ) < Real.exp (-(0.85 : ℝ) * 1) := Real.exp_pos _
    nlinarith

/-- **C1, amended.**  For every resolution call the returned confidence is
`round(0.5 + 0.5·tanh(2.5·(xi − 0.5)), 4)`: the damping factor
`exp(−damping·max(0, spread))` is evaluated on the `spread` attribute of the
memory object, which `SigmaState` does not define, so `spread` is always `0`,
the factor is always `1`, and the dispersion never affects the confidence. -/
theorem C1_confidence_formula (e : LambdaEngine) (s : SigmaState)
    (imago : PhaseCoord) (atlas : Option AtlasObj)
    (godel edge : Option FieldObj) (r : LambdaResult)
    (h : e.forward s imago atlas godel edge = .ok r) :
    r.confidence = roundTo 4 (0.5 + 0.5 * Real.tanh (2.5 * (s.xi - 0.5))) := by
  unfold LambdaEngine.forward at h
  dsimp only at h
  split at h
  · exact Except.noConfusion h
  · injection h with h'
    subst h'
    show e.confidence s.xi 0 = _
    unfold LambdaEngine.confidence
    rw [max_self, mul_zero, Real.exp_zero, mul_one]

/-- Witness for C1 (amended) at the trivial call. -/
theorem C1_confidence_formula_witness :
    (LambdaEngine.init.forward (SigmaState.init 32) ⟨0, 0, 0⟩ none none none =
      Except.ok
        { mode := ["POOR", "PCM"]
          confidence := LambdaEngine.init.confidence 1 0
          xi := roundTo 4 1
          chosen := (PhaseCoord.mk 0 0 0).clamp }) ∧
    LambdaEngine.init.confidence 1 0 =
      roundTo 4 (0.5 + 0.5 * Real.tanh (2.5 * ((SigmaState.init 32).xi - 0.5))) :=
  ⟨forward_init_trivial,
    C1_confidence_formula LambdaEngine.init (SigmaState.init 32) ⟨0, 0, 0⟩
      none none none _ forward_init_trivial⟩

/-! ### Claim C3 — enforce pushes along every axis, not the nearest one -/

/-- Inside the locked box every component is in its range, so `enforce`
reduces to pushing all three components of the clamped coordinate. -/
theorem enforce_default_eq (c : PhaseCoord) :
    enforce defaultTopology c = enforceStep c.clamp rocksteeple := by
  unfold enforce defaultTopology
  simp only [List.foldl_cons, List.foldl_nil]
  have hs : enforceStep c.clamp originShrine = c.clamp := by
    unfold enforceStep
    rw [if_neg]
    rintro ⟨hl, -⟩
    simp [originShrine] at hl
  rw [hs]

/-- **C3, counterexample.**  The point `(0.22, 0.6, 0.8)` lies strictly
inside the locked region with `theta` the axis nearest to an edge, yet
`enforce` moves *all three* axes: it returns `(0.18, 0.72, 0.68)`, so the
`phi` and `rho` axes do not stay unchanged as claimed. -/
theorem C3_counterexample :
    insideRegion ⟨0.22, 0.6, 0.8⟩ rocksteeple ∧
    enforce defaultTopology ⟨0.22, 0.6, 0.8⟩ = ⟨0.18, 0.72, 0.68⟩ ∧
    (enforce defaultTopology ⟨0.22, 0.6, 0.8⟩).phi ≠
      (⟨0.22, 0.6, 0.8⟩ : PhaseCoord).phi := by
  have hin : insideRegion ⟨0.22, 0.6, 0.8⟩ rocksteeple := by
    unfold insideRegion rocksteeple
    norm_num
  have hb : inBounds (⟨0.22, 0.6, 0.8⟩ : PhaseCoord) := by
    unfold inBounds; norm_num
  have hcl : (⟨0.22, 0.6, 0.8⟩ : PhaseCoord).clamp = ⟨0.22, 0.6, 0.8⟩ :=
    clamp_eq_self hb
  have henf : enforce defaultTopology ⟨0.22, 0.6, 0.8⟩ = ⟨0.18, 0.72, 0.68⟩ := by
    rw [enforce_default_eq, hcl]
    unfold enforceStep
    rw [if_pos ⟨by simp [rocksteeple], hin⟩]
    have hθ : push1d (0.22 : ℝ) rocksteeple.theta_range = 0.18 := by
      unfold push1d rocksteeple
      rw [if_neg (by norm_num), if_pos (by norm_num)]
      norm_num
    have hφ : push1d (0.6 : ℝ) rocksteeple.phi_range = 0.72 := by
      unfold push1d rocksteeple
      rw [if_neg (by norm_num), if_neg (by norm_num)]
      norm_num
    have hρ : push1d (0.8 : ℝ) rocksteeple.rho_range = 0.68 := by
      unfold push1d rocksteeple
      rw [if_neg (by norm_num), if_pos (by norm_num)]
      norm_num
    show (PhaseCoord.mk (push1d (0.22 : ℝ) rocksteeple.theta_range)
        (push1d (0.6 : ℝ) rocksteeple.phi_range)
        (push1d (0.8 : ℝ) rocksteeple.rho_range)).clamp = _
    rw [hθ, hφ, hρ]
    exact clamp_eq_self (by unfold inBounds; norm_num)
  refine ⟨hin, henf, ?_⟩
  rw [henf]
  norm_num

/-- **C3, amended.**  For every coordinate whose clamp falls inside the
locked region, `enforce` pushes **all three** axes — each component is moved
past its nearer region edge by the fixed margin `0.02` — and then re-clamps;
the result always lies outside every locked region and within the global
bounds (the `theta` push lands at `0.18` or `0.32`, both outside the locked
`theta` range and unaffected by the re-clamp). -/
theorem C3_enforce_all_axes (c : PhaseCoord) :
    inBounds (enforce defaultTopology c) ∧
    ¬ insideLocked defaultTopology (enforce defaultTopology c) ∧
    (insideRegion c.clamp rocksteeple →
      enforce defaultTopology c =
        (PhaseCoord.mk (push1d c.clamp.theta rocksteeple.theta_range)
          (push1d c.clamp.phi rocksteeple.phi_range)
          (push1d c.clamp.rho rocksteeple.rho_range)).clamp) := by
  by_cases hin : insideRegion c.clamp rocksteeple
  · have henf : enforce defaultTopology c =
        (PhaseCoord.mk (push1d c.clamp.theta rocksteeple.theta_range)
          (push1d c.clamp.phi rocksteeple.phi_range)
          (push1d c.clamp.rho rocksteeple.rho_range)).clamp := by
      rw [enforce_default_eq]
      unfold enforceStep
      rw [if_pos ⟨by simp [rocksteeple], hin⟩]
    obtain ⟨h1, h2, -⟩ := hin
    simp only [rocksteeple] at h1 h2
    have hθ : push1d c.clamp.theta rocksteeple.theta_range = 0.18 ∨
        push1d c.clamp.theta rocksteeple.theta_range = 0.32 := by
      unfold push1d rocksteeple
      dsimp only
      rw [if_neg (by push_neg; constructor <;> linarith)]
      split
      · left; norm_num
      · right; norm_num
    have hres : (enforce defaultTopology c).theta = 0.18 ∨
        (enforce defaultTopology c).theta = 0.32 := by
      rw [henf]
      rcases hθ with h | h <;> rw [h]
      · left
        show max (-1) (min 1 (0.18 : ℝ)) = 0.18
        norm_num
      · right
        show max (-1) (min 1 (0.32 : ℝ)) = 0.32
        norm_num
    refine ⟨henf ▸ inBounds_clamp _, ?_, fun _ => henf⟩
    rintro ⟨r, hr, hlock, hins⟩
    simp only [defaultTopology, List.mem_cons, List.mem_singleton,
      List.not_mem_nil, or_false] at hr
    rcases hr with rfl | rfl
    · simp [originShrine] at hlock
    · obtain ⟨g1, g2, -⟩ := hins
      simp only [rocksteeple] at g1 g2
      rcases hres with h | h <;> rw [h] at g1 g2 <;> linarith
  · have henf : enforce defaultTopology c = c.clamp := by
      rw [enforce_default_eq]
      unfold enforceStep
      rw [if_neg]
      rintro ⟨-, hi⟩
      exact hin hi
    refine ⟨henf ▸ inBounds_clamp _, ?_, fun h => absurd h hin⟩
    rintro ⟨r, hr, hlock, hins⟩
    simp only [defaultTopology, List.mem_cons, List.mem_singleton,
      List.not_mem_nil, or_false] at hr
    rcases hr with rfl | rfl
    · simp [originShrine] at hlock
    · rw [henf] at hins
      exact hin hins

/-- Witness for C3 (amended) at the point `(0.25, 0.62, 0.95)` strictly
inside the locked region. -/
theorem C3_enforce_all_axes_witness :
    insideRegion (⟨0.25, 0.62, 0.95⟩ : PhaseCoord).clamp rocksteeple ∧
    enforce defaultTopology ⟨0.25, 0.62, 0.95⟩ =
      (PhaseCoord.mk
        (push1d (⟨0.25, 0.62, 0.95⟩ : PhaseCoord).clamp.theta rocksteeple.theta_range)
        (push1d (⟨0.25, 0.62, 0.95⟩ : PhaseCoord).clamp.phi rocksteeple.phi_range)
        (push1d (⟨0.25, 0.62, 0.95⟩ : PhaseCoord).clamp.rho rocksteeple.rho_range)).clamp := by
  have hcl : (⟨0.25, 0.62, 0.95⟩ : PhaseCoord).clamp = ⟨0.25, 0.62, 0.95⟩ :=
    clamp_eq_self (by unfold inBounds; norm_num)
  have hin : insideRegion (⟨0.25, 0.62, 0.95⟩ : PhaseCoord).clamp rocksteeple := by
    rw [hcl]
    unfold insideRegion rocksteeple
    norm_num
  exact ⟨hin, (C3_enforce_all_axes ⟨0.25, 0.62, 0.95⟩).2.2 hin⟩

/-! ### Claim C4 — exception policy for optional fields -/

/-- **C4, counterexample.**  A resolution with an atlas exposing a
`pull_vector` method that raises does **not** complete: the exception
propagates out of `forward` (core/lambda_engine.py lines 144-146 and 238
have no `try`/`except` around the Atlas-v2 call), aborting the resolution
instead of treating the field as absent. -/
theorem C4_counterexample :
    LambdaEngine.init.forward (SigmaState.init 32) ⟨0, 0, 0⟩
      (some { pull_vector := some fun _ => .error ()
              as_lambda_payload := none
              nearest := none }) none none = .error () := rfl

/-- **C4, amended.**  A failing pull-vector computation is treated as
absence for the edge field, the Gödel field, and the atlas v1 interfaces
(`as_lambda_payload`, `nearest`) — the resolution completes exactly as if
the field were absent — **except** for an atlas exposing a v2 `pull_vector`
method: an exception raised there propagates and aborts the resolution. -/
theorem C4_exception_policy (e : LambdaEngine) (s : SigmaState)
    (imago : PhaseCoord) (atlas : Option AtlasObj)
    (godel edge : Option FieldObj)
    (gE gG fV : PhaseCoord → Except Unit Vec3)
    (gP gN : PhaseCoord → Except Unit (Option Vec3))
    (aP aN : Option (PhaseCoord → Except Unit (Option Vec3)))
    (hE : gE s.currentPhase.clamp = .error ())
    (hG : gG s.currentPhase.clamp = .error ())
    (hP : gP s.currentPhase.clamp = .error ())
    (hN : gN s.currentPhase.clamp = .error ())
    (hV : fV s.currentPhase.clamp = .error ()) :
    (e.forward s imago atlas godel (some { resultant_vector := some gE }) =
      e.forward s imago atlas godel none) ∧
    (e.forward s imago atlas (some { resultant_vector := some gG }) edge =
      e.forward s imago atlas none edge) ∧
    (e.forward s imago
        (some { pull_vector := none, as_lambda_payload := some gP,
                nearest := some gN }) godel edge =
      e.forward s imago none godel edge) ∧
    (e.forward s imago
        (some { pull_vector := some fV, as_lambda_payload := aP,
                nearest := aN }) godel edge = .error ()) := by
  refine ⟨?_, ?_, ?_, ?_⟩
  · unfold LambdaEngine.forward
    dsimp only
    rw [hE]
  · unfold LambdaEngine.forward
    dsimp only
    rw [hG]
  · unfold LambdaEngine.forward atlasPullVector
    dsimp only
    rw [hP, hN]
  · unfold LambdaEngine.forward atlasPullVector
    dsimp only
    rw [hV]
    rfl

/-- Witness for C4 (amended) with concrete always-raising field objects. -/
theorem C4_exception_policy_witness :
    ((fun _ : PhaseCoord => (Except.error () : Except Unit Vec3))
        ((SigmaState.init 32).currentPhase.clamp) = .error ()) ∧
    (LambdaEngine.init.forward (SigmaState.init 32) ⟨0, 0, 0⟩ none none
        (some { resultant_vector := some fun _ => .error () }) =
      LambdaEngine.init.forward (SigmaState.init 32) ⟨0, 0, 0⟩ none none none) ∧
    (LambdaEngine.init.forward (SigmaState.init 32) ⟨0, 0, 0⟩
        (some { pull_vector := some fun _ => .error ()
                as_lambda_payload := none
                nearest := none }) none none = .error ()) := by
  have h := C4_exception_policy LambdaEngine.init (SigmaState.init 32)
    ⟨0, 0, 0⟩ none none none (fun _ => .error ()) (fun _ => .error ())
    (fun _ => .error ()) (fun _ => .error ()) (fun _ => .error ())
    none none rfl rfl rfl rfl rfl
  exact ⟨rfl, h.1, h.2.2.2⟩

/-! ### Claim C6 — every produced coordinate is within the global bounds -/

theorem foldl_enforceStep_inBounds (l : List TopologyRegion) (acc : PhaseCoord)
    (h : inBounds acc) : inBounds (l.foldl enforceStep acc) := by
  induction l generalizing acc with
  | nil => exact h
  | cons r t ih =>
    simp only [List.foldl_cons]
    apply ih
    unfold enforceStep
    split
    · exact inBounds_clamp _
    · exact h

theorem enforce_inBounds (regions : List TopologyRegion) (c : PhaseCoord) :
    inBounds (enforce regions c) :=
  foldl_enforceStep_inBounds regions c.clamp (inBounds_clamp c)

/-- **C6.**  `clamp()` always lands in the global bounds, and so does every
coordinate produced by the core operations: the text-to-coordinate mapping,
topology enforcement, the history centroid, the edge-coordinate derivation,
and the resolved coordinate of a resolution. -/
theorem C6_core_bounds :
    (∀ c : PhaseCoord, inBounds c.clamp) ∧
    (∀ (m : PhaseMapper) (t : String), inBounds (textToPhase m t)) ∧
    (∀ (regions : List TopologyRegion) (c : PhaseCoord),
      inBounds (enforce regions c)) ∧
    (∀ (h : SigmaHistory) (c : PhaseCoord), h.centroid = some c → inBounds c) ∧
    (∀ (eh : String → ℕ × ℕ × ℕ) (s r o : String),
      inBounds (edgePhase eh s r o)) ∧
    (∀ (e : LambdaEngine) (s : SigmaState) (imago : PhaseCoord)
      (atlas : Option AtlasObj) (godel edge : Option FieldObj)
      (r : LambdaResult),
      e.forward s imago atlas godel edge = .ok r → inBounds r.chosen) := by
  refine ⟨inBounds_clamp, ?_, enforce_inBounds, ?_, ?_, ?_⟩
  · intro m t
    unfold textToPhase
    dsimp only
    split
    · unfold inBounds; norm_num
    · exact enforce_inBounds _ _
  · intro h c hc
    unfold SigmaHistory.centroid at hc
    split at hc
    · exact Option.noConfusion hc
    · injection hc with hc'
      subst hc'
      exact inBounds_clamp _
  · intro eh s r o
    unfold edgePhase
    exact inBounds_clamp _
  · intro e s imago atlas godel edge r h
    unfold LambdaEngine.forward at h
    dsimp only at h
    split at h
    · exact Except.noConfusion h
    · injection h with h'
      subst h'
      exact inBounds_clamp _

/-- Witness for C6 at concrete inputs for every conjunct. -/
theorem C6_core_bounds_witness :
    inBounds (PhaseCoord.clamp ⟨5, -3, 2⟩) ∧
    inBounds (textToPhase ⟨defaultTopology, fun _ => 0⟩ "") ∧
    inBounds (enforce defaultTopology ⟨0.22, 0.6, 0.8⟩) ∧
    ((SigmaHistory.mk 32 [⟨0, 0, 0⟩]).centroid = some ⟨0, 0, 0⟩ ∧
      inBounds (⟨0, 0, 0⟩ : PhaseCoord)) ∧
    inBounds (edgePhase (fun _ => (0, 0, 0)) "a" "r" "b") ∧
    (LambdaEngine.init.forward (SigmaState.init 32) ⟨0, 0, 0⟩ none none none =
        Except.ok
          { mode := ["POOR", "PCM"]
            confidence := LambdaEngine.init.confidence 1 0
            xi := roundTo 4 1
            chosen := (PhaseCoord.mk 0 0 0).clamp } ∧
      inBounds ((PhaseCoord.mk 0 0 0).clamp)) := by
  have hcent : (SigmaHistory.mk 32 [⟨0, 0, 0⟩]).centroid = some ⟨0, 0, 0⟩ := by
    unfold SigmaHistory.centroid
    rw [if_neg (by simp)]
    simp only [List.map_cons, List.map_nil, List.sum_cons, List.sum_nil,
      add_zero, List.length_cons, List.length_nil, zero_add, Nat.cast_one,
      div_one]
    rw [clamp_eq_self (by unfold inBounds; norm_num)]
  exact ⟨C6_core_bounds.1 _,
    C6_core_bounds.2.1 _ _,
    C6_core_bounds.2.2.1 _ _,
    ⟨hcent, C6_core_bounds.2.2.2.1 _ _ hcent⟩,
    C6_core_bounds.2.2.2.2.1 _ _ _ _,
    ⟨forward_init_trivial,
      C6_core_bounds.2.2.2.2.2 _ _ _ _ _ _ _ forward_init_trivial⟩⟩

/-! ### Claim C9 — sample_attractors -/

theorem strongBridges_ne_nil {f : GodelField} (h : f.bridges ≠ []) :
    strongBridges f ≠ [] := by
  have hpos : 0 < f.bridges.length := List.length_pos.mpr h
  apply List.ne_nil_of_length_pos
  unfold strongBridges sortByStrengthDesc
  rw [List.length_take, List.length_mergeSort]
  omega

theorem samplePicks_error (strong : List RelationBridge) (digest : List ℕ)
    (hlen : digest.length = 32) (hs : strong ≠ []) :
    ∀ (m i : ℕ), i ≤ 32 → 32 < i + m →
      samplePicks strong digest i m = .error () := by
  intro m
  induction m with
  | zero => intro i h1 h2; omega
  | succ n ih =>
    intro i h1 h2
    unfold samplePicks
    by_cases hi : i < 32
    · have hilen : i < digest.length := by omega
      have hpos : 0 < strong.length := List.length_pos.mpr hs
      have hmod : digest[i] % strong.length < strong.length :=
        Nat.mod_lt _ hpos
      have hidx : digest[i]? = some digest[i] :=
        List.getElem?_eq_getElem hilen
      rw [hidx]
      dsimp only
      have hsidx : strong[digest[i] % strong.length]? =
          some strong[digest[i] % strong.length] :=
        List.getElem?_eq_getElem hmod
      rw [hsidx]
      dsimp only
      rw [ih (i + 1) (by omega) (by omega)]
      rfl
    · have : digest[i]? = none := List.getElem?_eq_none (by omega)
      rw [this]

theorem samplePicks_ok (strong : List RelationBridge) (digest : List ℕ)
    (hlen : digest.length = 32) (hs : strong ≠ []) :
    ∀ (m i : ℕ), i + m ≤ 32 →
      ∃ picks, samplePicks strong digest i m = .ok picks ∧
        picks.length = m ∧ ∀ p ∈ picks, ∃ b ∈ strong, p = b.e_phase := by
  intro m
  induction m with
  | zero =>
    intro i _
    exact ⟨[], rfl, rfl, by simp⟩
  | succ n ih =>
    intro i hm
    obtain ⟨picks, hp, hplen, hpmem⟩ := ih (i + 1) (by omega)
    have hilen : i < digest.length := by omega
    have hpos : 0 < strong.length := List.length_pos.mpr hs
    have hmod : digest[i] % strong.length < strong.length :=
      Nat.mod_lt _ hpos
    have hidx : digest[i]? = some digest[i] :=
      List.getElem?_eq_getElem hilen
    have hsidx : strong[digest[i] % strong.length]? =
        some strong[digest[i] % strong.length] :=
      List.getElem?_eq_getElem hmod
    refine ⟨(strong[digest[i] % strong.length]).e_phase ::
      picks, ?_, by simp [hplen], ?_⟩
    · unfold samplePicks
      rw [hidx]
      dsimp only
      rw [hsidx]
      dsimp only
      rw [hp]
      rfl
    · intro p hpmem'
      rcases List.mem_cons.mp hpmem' with h | h
      · exact ⟨_, List.getElem_mem hmod, h⟩
      · exact hpmem p h

/-- **C9, counterexample.**  On a field holding one bridge, requesting
`k = 33` attractors raises instead of returning a list: the pick loop reads
byte `h[32]` of the 32-byte SHA-256 digest (core/godel_field.py lines
240-241), an out-of-range index. -/
theorem C9_counterexample :
    GodelField.sampleAttractors
      { GodelField.init with bridges :=
          [⟨"a", "r", "b", ⟨0, 0, 0⟩, ⟨0, 0, 0⟩, ⟨0, 0, 0⟩, 1, "user"⟩] }
      (List.replicate 32 0) 33 = .error () := by
  unfold GodelField.sampleAttractors
  rw [if_neg (by simp)]
  apply samplePicks_error _ _ (by simp) (strongBridges_ne_nil (by simp))
  · omega
  · show 32 < 0 + (33 : ℤ).toNat
    omega

/-- **C9, amended.**  With the 32-byte seed digest: `sample_attractors`
returns the empty list when the field is empty or `k ≤ 0`; for
`0 < k ≤ 32` it returns exactly `k` coordinates, each the edge coordinate
of one of the 64 strongest bridges, selected by indexing the digest of the
seed; but for `k > 32` on a non-empty field it raises an `IndexError`
(the digest has only 32 bytes) instead of returning a list. -/
theorem C9_sample_attractors (f : GodelField) (digest : List ℕ) (k : ℤ)
    (hlen : digest.length = 32) :
    ((f.bridges = [] ∨ k ≤ 0) → f.sampleAttractors digest k = .ok []) ∧
    (f.bridges ≠ [] → 0 < k → k ≤ 32 →
      ∃ picks, f.sampleAttractors digest k = .ok picks ∧
        picks.length = k.toNat ∧
        ∀ p ∈ picks, ∃ b ∈ strongBridges f, p = b.e_phase) ∧
    (f.bridges ≠ [] → 32 < k → f.sampleAttractors digest k = .error ()) := by
  refine ⟨?_, ?_, ?_⟩
  · intro h
    unfold GodelField.sampleAttractors
    rw [if_pos h]
  · intro hne hk0 hk32
    unfold GodelField.sampleAttractors
    rw [if_neg (by push_neg; exact ⟨hne, by omega⟩)]
    obtain ⟨picks, hp, hplen, hpmem⟩ :=
      samplePicks_ok (strongBridges f) digest hlen
        (strongBridges_ne_nil hne) k.toNat 0 (by omega)
    exact ⟨picks, hp, hplen, hpmem⟩
  · intro hne hk
    unfold GodelField.sampleAttractors
    rw [if_neg (by push_neg; exact ⟨hne, by omega⟩)]
    exact samplePicks_error (strongBridges f) digest hlen
      (strongBridges_ne_nil hne) k.toNat 0 (by omega) (by omega)

/-- Witness for C9 at a one-bridge field, the all-zero digest and `k = 1`. -/
theorem C9_sample_attractors_witness :
    ((List.replicate 32 (0 : ℕ)).length = 32 ∧
      GodelField.sampleAttractors
        { GodelField.init with bridges :=
            [⟨"x", "rel", "y", ⟨0, 0, 0⟩, ⟨0, 0, 0⟩, ⟨0, 0, 0⟩, 1, "user"⟩] }
        (List.replicate 32 0) 0 = .ok []) ∧
    (∃ picks,
      GodelField.sampleAttractors
        { GodelField.init with bridges :=
            [⟨"x", "rel", "y", ⟨0, 0, 0⟩, ⟨0, 0, 0⟩, ⟨0, 0, 0⟩, 1, "user"⟩] }
        (List.replicate 32 0) 1 = .ok picks ∧
      picks.length = (1 : ℤ).toNat ∧
      ∀ p ∈ picks, ∃ b ∈ strongBridges
        { GodelField.init with bridges :=
            [⟨"x", "rel", "y", ⟨0, 0, 0⟩, ⟨0, 0, 0⟩, ⟨0, 0, 0⟩, 1, "user"⟩] },
        p = b.e_phase) := by
  have hlen : (List.replicate 32 (0 : ℕ)).length = 32 := by simp
  constructor
  · exact ⟨hlen, (C9_sample_attractors _ _ 0 hlen).1 (Or.inr (by omega))⟩
  · exact (C9_sample_attractors _ _ 1 hlen).2.1 (by simp) (by omega) (by omega)

/-! ### Claim C7 — gated ingestion and ingested strength -/

theorem capClamp_subset {maxB : ℕ} {l : List RelationBridge} {b : RelationBridge}
    (hb : b ∈ capClamp maxB l) : b ∈ l := by
  unfold capClamp at hb
  split at hb
  · have := (List.take_sublist _ _).subset hb
    unfold sortByStrengthDesc at this
    rwa [List.mem_mergeSort] at this
  · exact hb

theorem addRelation_strength_cases (f : GodelField) (m : PhaseMapper)
    (eh : String → ℕ × ℕ × ℕ) (subject relation object_ : String)
    (strength : ℝ) (origin : String) :
    ∀ b ∈ (f.addRelation m eh subject relation object_ strength origin).bridges,
      b ∈ f.bridges ∨ (b.strength = max 0 strength ∧ b.origin = origin) := by
  unfold GodelField.addRelation
  dsimp only
  split
  · exact fun b hb => Or.inl hb
  · intro b hb
    dsimp only at hb
    have hb1 := capClamp_subset hb
    split at hb1
    · rcases List.mem_append.mp hb1 with h | h
      · exact Or.inl h
      · right
        rw [List.mem_singleton.mp h]
        exact ⟨rfl, rfl⟩
    · split at hb1
      · rcases List.mem_or_eq_of_mem_set hb1 with h | h
        · exact Or.inl h
        · right
          rw [h]
          exact ⟨rfl, rfl⟩
      · exact Or.inl hb1

theorem pushRelations_strength_cases (m : PhaseMapper)
    (eh : String → ℕ × ℕ × ℕ) (rels : List Relation) (strength : ℝ)
    (origin : String) (limit : ℕ) :
    ∀ (f : GodelField),
      ∀ b ∈ (pushRelations m eh f rels strength origin limit).bridges,
        b ∈ f.bridges ∨ (b.strength = max 0 strength ∧ b.origin = origin) := by
  unfold pushRelations
  generalize rels.take limit = l
  induction l with
  | nil => exact fun f b hb => Or.inl hb
  | cons r t ih =>
    intro f b hb
    simp only [List.foldl_cons] at hb
    rcases ih _ b hb with h | h
    · exact addRelation_strength_cases f m eh _ _ _ _ _ b h
    · exact Or.inr h

theorem relStrength_nonneg (w : ℝ) (a : SigmaAudit) : 0 ≤ relStrength w a :=
  le_max_left 0 _

/-- **C7.**  Relations reach the relation field only when the coherence
snapshot passes the gate `xi ≥ gate_min_xi ∧ spread ≤ gate_max_spread`
(otherwise the field is unchanged); every bridge the ingestion adds or
replaces carries the strength of **its own** origin class —
`base_weight(origin) · xi · exp(−0.85·spread)` clamped at zero with the
weight matching the bridge's origin tag. -/
theorem C7_ingestion_gate (cfg : DephazeConfig) (m : PhaseMapper)
    (eh : String → ℕ × ℕ × ℕ) (f : GodelField) (a : SigmaAudit)
    (user_rel wiki_rel global_rel : List Relation) :
    (¬ gateOk cfg a →
      ingestGodelField cfg m eh f a user_rel wiki_rel global_rel = f) ∧
    (gateOk cfg a →
      ∀ b ∈ (ingestGodelField cfg m eh f a user_rel wiki_rel global_rel).bridges,
        b ∈ f.bridges ∨
        (b.origin = "user" ∧ b.strength = relStrength cfg.godel_user_weight a) ∨
        (b.origin = "wiki" ∧ b.strength = relStrength cfg.godel_wiki_weight a) ∨
        (b.origin = "global" ∧
          b.strength = relStrength cfg.godel_global_weight a)) ∧
    (∀ w : ℝ, 0 ≤ a.spread →
      relStrength w a = max 0 (w * a.xi * Real.exp (-0.85 * a.spread))) := by
  refine ⟨?_, ?_, ?_⟩
  · intro hgate
    unfold ingestGodelField
    rw [if_pos hgate]
  · intro hgate b hb
    have hmax : ∀ w : ℝ, max 0 (relStrength w a) = relStrength w a :=
      fun w => max_eq_right (relStrength_nonneg w a)
    unfold ingestGodelField at hb
    rw [if_neg (not_not.mpr hgate)] at hb
    dsimp only at hb
    have step3 : b ∈ (if global_rel ≠ [] then
        pushRelations m eh
          (pushRelations m eh (pushRelations m eh f user_rel
            (relStrength cfg.godel_user_weight a) "user" 8) wiki_rel
            (relStrength cfg.godel_wiki_weight a) "wiki" 10) global_rel
          (relStrength cfg.godel_global_weight a) "global" 6
      else
        pushRelations m eh (pushRelations m eh f user_rel
          (relStrength cfg.godel_user_weight a) "user" 8) wiki_rel
          (relStrength cfg.godel_wiki_weight a) "wiki" 10).bridges := hb
    have hw2 : b ∈ (pushRelations m eh (pushRelations m eh f user_rel
        (relStrength cfg.godel_user_weight a) "user" 8) wiki_rel
        (relStrength cfg.godel_wiki_weight a) "wiki" 10).bridges →
        b ∈ f.bridges ∨
        (b.origin = "user" ∧ b.strength = relStrength cfg.godel_user_weight a) ∨
        (b.origin = "wiki" ∧ b.strength = relStrength cfg.godel_wiki_weight a) ∨
        (b.origin = "global" ∧
          b.strength = relStrength cfg.godel_global_weight a) := by
      intro h2
      rcases pushRelations_strength_cases m eh wiki_rel _ "wiki" 10 _ b h2 with
        h1 | h1
      · rcases pushRelations_strength_cases m eh user_rel _ "user" 8 _ b h1 with
          h0 | h0
        · exact Or.inl h0
        · refine Or.inr (Or.inl ⟨h0.2, ?_⟩)
          rw [h0.1]
          exact hmax _
      · refine Or.inr (Or.inr (Or.inl ⟨h1.2, ?_⟩))
        rw [h1.1]
        exact hmax _
    split at step3
    · rcases pushRelations_strength_cases m eh global_rel _ "global" 6 _ b
        step3 with h2 | h2
      · exact hw2 h2
      · refine Or.inr (Or.inr (Or.inr ⟨h2.2, ?_⟩))
        rw [h2.1]
        exact hmax _
    · exact hw2 step3
  · intro w hs
    unfold relStrength
    rw [max_eq_right hs]

unseal Substring.takeWhileAux Substring.takeRightWhileAux in
theorem trim_alice : ("alice" : String).trim = "alice" := rfl

unseal Substring.takeWhileAux Substring.takeRightWhileAux in
theorem trim_knows : ("knows" : String).trim = "knows" := rfl

unseal Substring.takeWhileAux Substring.takeRightWhileAux in
theorem trim_bob : ("bob" : String).trim = "bob" := rfl

unseal String.mapAux in
theorem toLower_knows : ("knows" : String).toLower = "knows" := rfl

/-- Concrete evaluation of a gate-passing ingestion: with a fully coherent
audit (`xi = 1`, `spread = 0`) one cleaned user relation is pushed into an
empty field and stored as a single user-origin bridge carrying the
user-class strength. -/
theorem ingest_example_eval :
    ingestGodelField DephazeConfig.default ⟨defaultTopology, fun _ => 0⟩
      (fun _ => (0, 0, 0)) GodelField.init ⟨1, 1, 0, (0, 0, 0)⟩
      [⟨"alice", "knows", "bob"⟩] [] [] =
    { GodelField.init with bridges :=
        [mkBridge ⟨defaultTopology, fun _ => 0⟩ (fun _ => (0, 0, 0))
          "alice" "knows" "bob"
          (relStrength DephazeConfig.default.godel_user_weight
            ⟨1, 1, 0, (0, 0, 0)⟩) "user"] } := by
  have hgate : gateOk DephazeConfig.default ⟨1, 1, 0, (0, 0, 0)⟩ := by
    unfold gateOk DephazeConfig.default
    norm_num
  unfold ingestGodelField
  rw [if_neg (not_not_intro hgate)]
  dsimp only
  rw [if_neg (by simp)]
  unfold pushRelations
  have htake : ([(⟨"alice", "knows", "bob"⟩ : Relation)]).take 8 =
      [⟨"alice", "knows", "bob"⟩] := rfl
  rw [htake]
  simp only [List.take_nil, List.foldl_cons, List.foldl_nil]
  unfold GodelField.addRelation
  dsimp only
  rw [trim_knows, toLower_knows, trim_knows, toLower_knows, trim_alice,
    trim_bob]
  rw [if_neg (by
    push_neg
    refine ⟨?_, ?_, ?_⟩ <;> decide)]
  have hinitb : GodelField.init.bridges = [] := rfl
  rw [hinitb]
  dsimp only [List.findIdx?]
  unfold capClamp
  rw [if_neg (by simp [GodelField.init])]
  simp only [List.nil_append]

/-- Witness for C7: a failing audit with a pending relation leaves the field
unchanged; a passing audit ingests a non-empty user relation list, and the
single resulting bridge carries the user origin with the user-class
strength; and the zero-dispersion audit gives the undamped formula. -/
theorem C7_ingestion_gate_witness :
    (¬ gateOk DephazeConfig.default ⟨0, 0, 999, (0, 0, 0)⟩ ∧
      ingestGodelField DephazeConfig.default ⟨defaultTopology, fun _ => 0⟩
        (fun _ => (0, 0, 0)) GodelField.init ⟨0, 0, 999, (0, 0, 0)⟩
        [⟨"alice", "knows", "bob"⟩] [] [] = GodelField.init) ∧
    (gateOk DephazeConfig.default ⟨1, 1, 0, (0, 0, 0)⟩ ∧
      ∀ b ∈ (ingestGodelField DephazeConfig.default
          ⟨defaultTopology, fun _ => 0⟩ (fun _ => (0, 0, 0)) GodelField.init
          ⟨1, 1, 0, (0, 0, 0)⟩ [⟨"alice", "knows", "bob"⟩] [] []).bridges,
        b ∈ GodelField.init.bridges ∨
        (b.origin = "user" ∧ b.strength =
          relStrength DephazeConfig.default.godel_user_weight
            ⟨1, 1, 0, (0, 0, 0)⟩) ∨
        (b.origin = "wiki" ∧ b.strength =
          relStrength DephazeConfig.default.godel_wiki_weight
            ⟨1, 1, 0, (0, 0, 0)⟩) ∨
        (b.origin = "global" ∧ b.strength =
          relStrength DephazeConfig.default.godel_global_weight
            ⟨1, 1, 0, (0, 0, 0)⟩)) ∧
    (ingestGodelField DephazeConfig.default ⟨defaultTopology, fun _ => 0⟩
        (fun _ => (0, 0, 0)) GodelField.init ⟨1, 1, 0, (0, 0, 0)⟩
        [⟨"alice", "knows", "bob"⟩] [] [] =
      { GodelField.init with bridges :=
          [mkBridge ⟨defaultTopology, fun _ => 0⟩ (fun _ => (0, 0, 0))
            "alice" "knows" "bob"
            (relStrength DephazeConfig.default.godel_user_weight
              ⟨1, 1, 0, (0, 0, 0)⟩) "user"] }) ∧
    ((0 : ℝ) ≤ (⟨1, 1, 0, (0, 0, 0)⟩ : SigmaAudit).spread ∧
      relStrength 0.60 ⟨1, 1, 0, (0, 0, 0)⟩ =
        max 0 (0.60 * (1 : ℝ) * Real.exp (-0.85 * 0))) := by
  have hbad : ¬ gateOk DephazeConfig.default ⟨0, 0, 999, (0, 0, 0)⟩ := by
    unfold gateOk DephazeConfig.default
    push_neg
    intro h
    norm_num at h
  have hgood : gateOk DephazeConfig.default ⟨1, 1, 0, (0, 0, 0)⟩ := by
    unfold gateOk DephazeConfig.default
    norm_num
  have hs : (0 : ℝ) ≤ (⟨1, 1, 0, (0, 0, 0)⟩ : SigmaAudit).spread := le_refl 0
  exact ⟨⟨hbad, (C7_ingestion_gate DephazeConfig.default
      ⟨defaultTopology, fun _ => 0⟩ (fun _ => (0, 0, 0)) GodelField.init
      ⟨0, 0, 999, (0, 0, 0)⟩ [⟨"alice", "knows", "bob"⟩] [] []).1 hbad⟩,
    ⟨hgood, (C7_ingestion_gate DephazeConfig.default
      ⟨defaultTopology, fun _ => 0⟩ (fun _ => (0, 0, 0)) GodelField.init
      ⟨1, 1, 0, (0, 0, 0)⟩ [⟨"alice", "knows", "bob"⟩] [] []).2.1 hgood⟩,
    ingest_example_eval,
    ⟨hs, (C7_ingestion_gate DephazeConfig.default
      ⟨defaultTopology, fun _ => 0⟩ (fun _ => (0, 0, 0)) GodelField.init
      ⟨1, 1, 0, (0, 0, 0)⟩ [] [] []).2.2 0.60 hs⟩⟩

/-! ### Claim C8 — capacity eviction keeps exactly the strongest bridges -/

theorem sortDesc_perm (l : List RelationBridge) : (sortByStrengthDesc l).Perm l :=
  List.mergeSort_perm l _

theorem strengthRank_perm {l l' : List RelationBridge} (h : l.Perm l')
    (b : RelationBridge) : strengthRank l b = strengthRank l' b :=
  h.countP_eq _

theorem topFilter_perm {l l' : List RelationBridge} (n : ℕ) (h : l.Perm l') :
    (topFilter n l).Perm (topFilter n l') := by
  unfold topFilter
  have he : (fun b => decide (strengthRank l b < n)) =
      (fun b => decide (strengthRank l' b < n)) :=
    funext fun b => by rw [strengthRank_perm h]
  rw [he]
  exact h.filter _

theorem nodupStr_perm {l l' : List RelationBridge} (h : l.Perm l')
    (hn : nodupStr l) : nodupStr l' :=
  (h.map RelationBridge.strength).nodup hn

theorem nodupStr_sublist {l l' : List RelationBridge} (h : l.Sublist l')
    (hn : nodupStr l') : nodupStr l :=
  List.Nodup.sublist (h.map RelationBridge.strength) hn

theorem sortDesc_sorted (l : List RelationBridge) :
    (sortByStrengthDesc l).Pairwise (fun a b => b.strength ≤ a.strength) := by
  have h : (List.mergeSort l
      (fun a b : RelationBridge => decide (b.strength ≤ a.strength))).Pairwise
      (fun a b : RelationBridge => decide (b.strength ≤ a.strength) = true) :=
    List.sorted_mergeSort
      (fun a b c hab hbc => by
        simp only [decide_eq_true_eq] at *
        exact le_trans hbc hab)
      (fun a b => by
        simp only [Bool.or_eq_true, decide_eq_true_eq]
        exact le_total b.strength a.strength)
      l
  exact h.imp fun hab => of_decide_eq_true hab

theorem sortDesc_strict (l : List RelationBridge) (h : nodupStr l) :
    (sortByStrengthDesc l).Pairwise (fun a b => b.strength < a.strength) := by
  have h1 := sortDesc_sorted l
  have h2 : nodupStr (sortByStrengthDesc l) :=
    nodupStr_perm (sortDesc_perm l).symm h
  have h3 : (sortByStrengthDesc l).Pairwise
      (fun a b => a.strength ≠ b.strength) := List.pairwise_map.mp h2
  exact (h1.and h3).imp fun hab =>
    lt_of_le_of_ne hab.1 fun heq => hab.2 heq.symm

theorem take_eq_topFilter : ∀ (l : List RelationBridge),
    l.Pairwise (fun a b => b.strength < a.strength) →
    ∀ n, l.take n = topFilter n l := by
  intro l
  induction l with
  | nil => intro _ n; simp [topFilter]
  | cons a t ih =>
    intro hs n
    obtain ⟨hat, ht⟩ := List.pairwise_cons.mp hs
    have hrank_a : strengthRank (a :: t) a = 0 := by
      unfold strengthRank
      rw [List.countP_cons]
      have h0 : t.countP (fun y => decide (a.strength < y.strength)) = 0 :=
        List.countP_eq_zero.mpr fun y hy => by
          simp only [decide_eq_true_eq]
          exact not_lt.mpr (le_of_lt (hat y hy))
      simp [h0, lt_irrefl]
    have hrank_t : ∀ x ∈ t, strengthRank (a :: t) x = strengthRank t x + 1 := by
      intro x hx
      unfold strengthRank
      rw [List.countP_cons]
      have hxa : decide (x.strength < a.strength) = true :=
        decide_eq_true (hat x hx)
      simp [hxa]
    cases n with
    | zero =>
      show [] = topFilter 0 (a :: t)
      symm
      unfold topFilter
      apply List.filter_eq_nil_iff.mpr
      intro b _
      simp
    | succ m =>
      show a :: t.take m = topFilter (m + 1) (a :: t)
      unfold topFilter
      rw [List.filter_cons]
      rw [if_pos (by simp [hrank_a])]
      congr 1
      have hcong : t.filter (fun b => decide (strengthRank (a :: t) b < m + 1)) =
          t.filter (fun b => decide (strengthRank t b < m)) :=
        List.filter_congr fun x hx => by
          rw [decide_eq_decide]
          rw [hrank_t x hx]
          omega
      rw [hcong]
      exact ih ht m

theorem topFilter_length (l : List RelationBridge) (h : nodupStr l) (n : ℕ) :
    (topFilter n l).length = min n l.length := by
  have h1 : (topFilter n l).Perm (topFilter n (sortByStrengthDesc l)) :=
    topFilter_perm n (sortDesc_perm l).symm
  have h2 : (sortByStrengthDesc l).take n = topFilter n (sortByStrengthDesc l) :=
    take_eq_topFilter _ (sortDesc_strict l h) n
  rw [h1.length_eq, ← h2, List.length_take]
  unfold sortByStrengthDesc
  rw [List.length_mergeSort]

theorem topFilter_eq_self_of_le (l : List RelationBridge) (n : ℕ)
    (h : l.length ≤ n) : topFilter n l = l := by
  unfold topFilter
  apply List.filter_eq_self.mpr
  intro b hb
  simp only [decide_eq_true_eq]
  have hlt : strengthRank l b < l.length := by
    unfold strengthRank
    rcases lt_or_eq_of_le (List.countP_le_length
      (fun y => decide (b.strength < y.strength)) (l := l)) with hc | hc
    · exact hc
    · exfalso
      have hall := List.countP_eq_length.mp hc
      have := hall b hb
      simp [lt_irrefl] at this
  omega

theorem topFilter_above {n : ℕ} {l : List RelationBridge} (h : nodupStr l)
    {b y : RelationBridge} (hb : b ∈ topFilter n l) (hy : y ∈ l)
    (hyn : y ∉ topFilter n l) : y.strength < b.strength := by
  have hbl : b ∈ l := (List.mem_filter.mp hb).1
  have hbr : strengthRank l b < n := by
    have := (List.mem_filter.mp hb).2
    simpa using this
  have hyr : ¬ strengthRank l y < n := by
    intro hc
    exact hyn (List.mem_filter.mpr ⟨hy, by simpa using hc⟩)
  by_contra hc
  push_neg at hc
  have hne : b.strength ≠ y.strength := by
    intro heq
    have hby : b = y := List.inj_on_of_nodup_map h hbl hy heq
    exact hyr (hby ▸ hbr)
  have hlt : b.strength < y.strength := lt_of_le_of_ne hc hne
  have hmono : strengthRank l y ≤ strengthRank l b := by
    unfold strengthRank
    apply List.countP_mono_left
    intro z hz hyz
    simp only [decide_eq_true_eq] at *
    exact lt_trans hlt hyz
  omega

theorem strengthRank_append_topFilter_iff (maxB : ℕ)
    (P : List RelationBridge) (c b : RelationBridge) (h : nodupStr P) :
    (strengthRank (topFilter maxB P ++ [c]) b < maxB ↔
      strengthRank (P ++ [c]) b < maxB) := by
  have hsub : (topFilter maxB P).Sublist P := List.filter_sublist _
  constructor
  · intro hlt
    by_cases hP : P.length < maxB
    · have hlenF : (topFilter maxB P).length = P.length := by
        rw [topFilter_length P h maxB]
        omega
      rwa [hsub.eq_of_length hlenF] at hlt
    · push_neg at hP
      have hFlen : (topFilter maxB P).length = maxB := by
        rw [topFilter_length P h maxB]
        omega
      by_cases hall : ∀ z ∈ topFilter maxB P, b.strength < z.strength
      · exfalso
        have hcF : (topFilter maxB P).countP
            (fun y => decide (b.strength < y.strength)) =
            (topFilter maxB P).length :=
          List.countP_eq_length.mpr fun z hz => decide_eq_true (hall z hz)
        have hge : maxB ≤ strengthRank (topFilter maxB P ++ [c]) b := by
          unfold strengthRank
          rw [List.countP_append]
          omega
        omega
      · push_neg at hall
        obtain ⟨z, hzF, hzle⟩ := hall
        have hzb : z.strength ≤ b.strength := hzle
        have hPF : P.countP (fun y => decide (b.strength < y.strength)) =
            (topFilter maxB P).countP
              (fun y => decide (b.strength < y.strength)) := by
          have hstep : P.countP (fun y => decide (b.strength < y.strength)) =
              P.countP (fun y => decide (b.strength < y.strength) &&
                decide (strengthRank P y < maxB)) := by
            apply List.countP_congr
            intro y hy
            constructor
            · intro hby
              simp only [decide_eq_true_eq, Bool.and_eq_true] at *
              refine ⟨hby, ?_⟩
              by_contra hyn
              have hynF : y ∉ topFilter maxB P := by
                intro hmem
                exact hyn (by simpa using (List.mem_filter.mp hmem).2)
              have := topFilter_above h hzF hy hynF
              -- y.strength < z.strength ≤ b.strength < y.strength
              have := lt_of_lt_of_le this hzb
              exact absurd hby (not_lt.mpr (le_of_lt this))
            · intro hand
              exact (Bool.and_eq_true _ _).mp hand |>.1
          rw [hstep]
          unfold topFilter
          rw [List.countP_filter]
        unfold strengthRank at *
        rw [List.countP_append] at *
        omega
  · intro hlt
    have hle : strengthRank (topFilter maxB P ++ [c]) b ≤
        strengthRank (P ++ [c]) b := by
      unfold strengthRank
      exact (hsub.append_right [c]).countP_le _
    omega

theorem topFilter_append_topFilter (maxB : ℕ) (P : List RelationBridge)
    (c : RelationBridge) (h : nodupStr P) :
    topFilter maxB (topFilter maxB P ++ [c]) = topFilter maxB (P ++ [c]) := by
  have hq : (fun b => decide (strengthRank (topFilter maxB P ++ [c]) b < maxB)) =
      (fun b => decide (strengthRank (P ++ [c]) b < maxB)) :=
    funext fun b =>
      decide_eq_decide.mpr (strengthRank_append_topFilter_iff maxB P c b h)
  show (topFilter maxB P ++ [c]).filter _ = (P ++ [c]).filter _
  rw [hq, List.filter_append, List.filter_append]
  congr 1
  show (topFilter maxB P).filter _ = _
  unfold topFilter
  rw [List.filter_filter]
  apply List.filter_congr
  intro y hy
  by_cases hp : strengthRank P y < maxB
  · simp [hp]
  · have hqy : ¬ strengthRank (P ++ [c]) y < maxB := by
      have hle : strengthRank P y ≤ strengthRank (P ++ [c]) y := by
        unfold strengthRank
        rw [List.countP_append]
        omega
      omega
    simp [hp, hqy]

theorem capClamp_append_topFilter (maxB : ℕ) (P s : List RelationBridge)
    (c : RelationBridge) (hperm : s.Perm (topFilter maxB P))
    (h : nodupStr (P ++ [c])) :
    (capClamp maxB (s ++ [c])).Perm (topFilter maxB (P ++ [c])) := by
  have hP : nodupStr P :=
    nodupStr_sublist (List.sublist_append_left P [c]) h
  have hsubF : (topFilter maxB P).Sublist P := List.filter_sublist _
  have hFc_sub : (topFilter maxB P ++ [c]).Sublist (P ++ [c]) :=
    hsubF.append_right [c]
  have hndFc : nodupStr (topFilter maxB P ++ [c]) := nodupStr_sublist hFc_sub h
  have hpermc : (s ++ [c]).Perm (topFilter maxB P ++ [c]) :=
    hperm.append_right [c]
  have hndsc : nodupStr (s ++ [c]) := nodupStr_perm hpermc.symm hndFc
  unfold capClamp
  split
  · have hperm2 : ((sortByStrengthDesc (s ++ [c])).take maxB).Perm
        (topFilter maxB (topFilter maxB P ++ [c])) := by
      rw [take_eq_topFilter _ (sortDesc_strict _ hndsc) maxB]
      exact (topFilter_perm _ (sortDesc_perm _)).trans (topFilter_perm _ hpermc)
    rw [topFilter_append_topFilter maxB P c hP] at hperm2
    exact hperm2
  · rename_i hlen
    push_neg at hlen
    have hsF : s.length = (topFilter maxB P).length := hperm.length_eq
    have hFlen : (topFilter maxB P).length = min maxB P.length :=
      topFilter_length P hP maxB
    have hslen : (s ++ [c]).length = s.length + 1 := by simp
    have hPlt : P.length < maxB := by
      rcases Nat.lt_or_ge P.length maxB with hc | hc
      · exact hc
      · exfalso
        have : (topFilter maxB P).length = maxB := by omega
        omega
    have hFP : topFilter maxB P = P :=
      hsubF.eq_of_length (by omega)
    have hshort : topFilter maxB (P ++ [c]) = P ++ [c] :=
      topFilter_eq_self_of_le _ _ (by simp; omega)
    rw [hshort]
    rw [hFP] at hpermc
    exact hpermc

theorem addSpec_bridges (m : PhaseMapper) (eh : String → ℕ × ℕ × ℕ)
    (f : GodelField) (sp : RelSpec)
    (hs : sp.subject.trim ≠ "") (hr : sp.relation.trim.toLower ≠ "")
    (ho : sp.object_.trim ≠ "")
    (hkey : ∀ b ∈ f.bridges, bridgeKey b ≠ specKey sp) :
    (addSpec m eh f sp).bridges =
      capClamp f.max_bridges (f.bridges ++ [specBridge m eh sp]) ∧
    (addSpec m eh f sp).max_bridges = f.max_bridges := by
  unfold addSpec GodelField.addRelation
  dsimp only
  rw [if_neg (by push_neg; exact ⟨hs, hr, ho⟩)]
  have hfind : f.bridges.findIdx? (fun b =>
      decide (stableKey b.subject b.relation b.object_ b.origin =
        stableKey sp.subject.trim sp.relation.trim.toLower sp.object_.trim
          sp.origin)) = none := by
    rw [List.findIdx?_eq_none_iff]
    intro b hb
    simp only [decide_eq_false_iff_not]
    exact hkey b hb
  rw [hfind]
  exact ⟨rfl, rfl⟩

theorem foldAddSpec_invariant (m : PhaseMapper) (eh : String → ℕ × ℕ × ℕ)
    (maxB : ℕ) :
    ∀ (L : List RelSpec) (f : GodelField) (P : List RelationBridge),
      f.max_bridges = maxB →
      f.bridges.Perm (topFilter maxB P) →
      nodupStr (P ++ L.map (specBridge m eh)) →
      (P.map bridgeKey ++ L.map specKey).Nodup →
      (∀ sp ∈ L, sp.subject.trim ≠ "" ∧ sp.relation.trim.toLower ≠ "" ∧
        sp.object_.trim ≠ "") →
      ((L.foldl (addSpec m eh) f).bridges).Perm
        (topFilter maxB (P ++ L.map (specBridge m eh))) := by
  intro L
  induction L with
  | nil =>
    intro f P hmax hperm _ _ _
    simpa using hperm
  | cons sp L ih =>
    intro f P hmax hperm hnd hkeys hparts
    obtain ⟨hs, hr, ho⟩ := hparts sp (List.mem_cons_self _ _)
    have hbk : ∀ b ∈ f.bridges, bridgeKey b ≠ specKey sp := by
      intro b hb heq
      have hbP : b ∈ P :=
        (List.mem_filter.mp (hperm.mem_iff.mp hb)).1
      have hsp_mem : specKey sp ∈ P.map bridgeKey :=
        heq ▸ List.mem_map_of_mem bridgeKey hbP
      have hdisj := (List.nodup_append.mp hkeys).2.2
      exact hdisj hsp_mem (by simp)
    have hstep := addSpec_bridges m eh f sp hs hr ho hbk
    have hnd1 : nodupStr (P ++ [specBridge m eh sp]) := by
      apply nodupStr_sublist _ hnd
      have : P ++ [specBridge m eh sp] =
          List.take (P.length + 1) (P ++ specBridge m eh sp ::
            L.map (specBridge m eh)) := by
        rw [List.take_append_eq_append_take]
        simp
      rw [this]
      exact List.take_sublist _ _
    have hcap : ((addSpec m eh f sp).bridges).Perm
        (topFilter maxB (P ++ [specBridge m eh sp])) := by
      rw [hstep.1, hmax]
      exact capClamp_append_topFilter maxB P f.bridges (specBridge m eh sp)
        hperm hnd1
    rw [List.foldl_cons]
    have hres := ih (addSpec m eh f sp) (P ++ [specBridge m eh sp])
      (by rw [hstep.2, hmax]) hcap
      (by simpa using hnd)
      (by
        have hkey_eq : bridgeKey (specBridge m eh sp) = specKey sp := rfl
        simp only [List.map_append, List.map_cons, List.map_nil, hkey_eq,
          List.append_assoc] at *
        simpa using hkeys)
      (fun sp' h' => hparts sp' (List.mem_cons_of_mem _ h'))
    simpa using hres

theorem capClamp_length_le (n : ℕ) (l : List RelationBridge) :
    (capClamp n l).length ≤ n := by
  unfold capClamp
  split
  · rw [List.length_take]
    exact min_le_left _ _
  · rename_i hg
    push_neg at hg
    exact hg

/-- **C8.**  Folding `add_relation` over `maximum + 50` requests with
nonempty parts, pairwise-distinct keys and pairwise-distinct nonnegative
strengths, starting from an empty field of capacity `maximum`, leaves
exactly `maximum` bridges; a request's bridge survives iff fewer than
`maximum` requests are strictly stronger (so the discarded ones are exactly
the 50 weakest); and no `add_relation` call ever leaves more than
`maximum` bridges. -/
theorem C8_capacity_eviction (m : PhaseMapper) (eh : String → ℕ × ℕ × ℕ)
    (maxB : ℕ) (L : List RelSpec)
    (hlen : L.length = maxB + 50)
    (hparts : ∀ sp ∈ L, sp.subject.trim ≠ "" ∧ sp.relation.trim.toLower ≠ "" ∧
      sp.object_.trim ≠ "")
    (hkeys : (L.map specKey).Nodup)
    (hstr : nodupStr (L.map (specBridge m eh)))
    (hnn : ∀ sp ∈ L, 0 ≤ sp.strength) :
    ((L.foldl (addSpec m eh)
      { GodelField.init with max_bridges := maxB, bridges := [] }).bridges).length
        = maxB ∧
    (∀ sp ∈ L,
      (specBridge m eh sp ∈ (L.foldl (addSpec m eh)
          { GodelField.init with max_bridges := maxB, bridges := [] }).bridges ↔
        L.countP (fun sp2 => decide (sp.strength < sp2.strength)) < maxB)) ∧
    (∀ (f : GodelField) (subject relation object_ : String) (strength : ℝ)
      (origin : String),
      f.bridges.length ≤ f.max_bridges →
      (f.addRelation m eh subject relation object_ strength
        origin).bridges.length ≤ f.max_bridges) := by
  have hinv := foldAddSpec_invariant m eh maxB L
    { GodelField.init with max_bridges := maxB, bridges := [] } []
    rfl (by simp [topFilter]) (by simpa using hstr) (by simpa using hkeys)
    hparts
  simp only [List.nil_append] at hinv
  have hcnt : ∀ sp ∈ L,
      strengthRank (L.map (specBridge m eh)) (specBridge m eh sp) =
        L.countP (fun sp2 => decide (sp.strength < sp2.strength)) := by
    intro sp hsp
    unfold strengthRank
    rw [List.countP_map]
    apply List.countP_congr
    intro sp2 h2
    have e1 : (specBridge m eh sp).strength = sp.strength :=
      max_eq_right (hnn sp hsp)
    have e2 : (specBridge m eh sp2).strength = sp2.strength :=
      max_eq_right (hnn sp2 h2)
    simp only [Function.comp_apply, decide_eq_true_eq]
    rw [e1, e2]
  refine ⟨?_, ?_, ?_⟩
  · rw [hinv.length_eq, topFilter_length _ hstr, List.length_map, hlen]
    exact min_eq_left (by omega)
  · intro sp hsp
    constructor
    · intro hmem
      have h2 := (List.mem_filter.mp (hinv.mem_iff.mp hmem)).2
      simp only [decide_eq_true_eq] at h2
      rwa [hcnt sp hsp] at h2
    · intro hcount
      apply hinv.mem_iff.mpr
      apply List.mem_filter.mpr
      refine ⟨List.mem_map_of_mem _ hsp, ?_⟩
      simp only [decide_eq_true_eq]
      rwa [hcnt sp hsp]
  · intro f subject relation object_ strength origin hle
    unfold GodelField.addRelation
    dsimp only
    split
    · exact hle
    · exact capClamp_length_le _ _

unseal Substring.takeWhileAux Substring.takeRightWhileAux in
theorem trim_a : ("a" : String).trim = "a" := rfl

unseal Substring.takeWhileAux Substring.takeRightWhileAux in
theorem trim_r : ("r" : String).trim = "r" := rfl

unseal Substring.takeWhileAux Substring.takeRightWhileAux in
theorem trim_b : ("b" : String).trim = "b" := rfl

unseal String.mapAux in
theorem toLower_r : ("r" : String).toLower = "r" := rfl

/-- Witness for C8: fifty requests with distinct origins and strengths
`0, 1, …, 49` into a capacity-0 field. -/
theorem C8_capacity_eviction_witness :
    (((List.range 50).map (fun i : ℕ => RelSpec.mk "a" "r" "b" (i : ℝ)
        (String.mk (List.replicate i 'x')))).length = 0 + 50) ∧
    ((((List.range 50).map (fun i : ℕ => RelSpec.mk "a" "r" "b" (i : ℝ)
        (String.mk (List.replicate i 'x')))).foldl
      (addSpec ⟨defaultTopology, fun _ => 0⟩ (fun _ => (0, 0, 0)))
      { GodelField.init with max_bridges := 0, bridges := [] }).bridges).length
        = 0 ∧
    (GodelField.init.bridges.length ≤ GodelField.init.max_bridges ∧
      (GodelField.init.addRelation ⟨defaultTopology, fun _ => 0⟩
        (fun _ => (0, 0, 0)) "s" "rel" "o" 1 "user").bridges.length ≤
        GodelField.init.max_bridges) := by
  have hlen : (((List.range 50).map (fun i : ℕ => RelSpec.mk "a" "r" "b" (i : ℝ)
      (String.mk (List.replicate i 'x')))).length = 0 + 50) := by simp
  have hparts : ∀ sp ∈ ((List.range 50).map (fun i : ℕ =>
      RelSpec.mk "a" "r" "b" (i : ℝ) (String.mk (List.replicate i 'x')))),
      sp.subject.trim ≠ "" ∧ sp.relation.trim.toLower ≠ "" ∧
      sp.object_.trim ≠ "" := by
    intro sp hsp
    obtain ⟨i, -, rfl⟩ := List.mem_map.mp hsp
    refine ⟨?_, ?_, ?_⟩
    · show ("a" : String).trim ≠ ""
      rw [trim_a]
      decide
    · show (("r" : String).trim).toLower ≠ ""
      rw [trim_r, toLower_r]
      decide
    · show ("b" : String).trim ≠ ""
      rw [trim_b]
      decide
  have hkeys : ((((List.range 50).map (fun i : ℕ => RelSpec.mk "a" "r" "b" (i : ℝ)
      (String.mk (List.replicate i 'x'))))).map specKey).Nodup := by
    have hkeylen : ∀ i : ℕ, (specKey (RelSpec.mk "a" "r" "b" (i : ℝ)
        (String.mk (List.replicate i 'x')))).length = i + 6 := by
      intro i
      show (String.mk (List.replicate i 'x') ++ "|" ++ "a".trim ++ "|" ++
        ("r".trim.toLower).toLower ++ "|" ++ "b".trim).length = i + 6
      rw [trim_a, trim_b, trim_r, toLower_r, toLower_r]
      have h1 : ("|" : String).length = 1 := rfl
      have h2 : ("a" : String).length = 1 := rfl
      have h3 : ("r" : String).length = 1 := rfl
      have h4 : ("b" : String).length = 1 := rfl
      simp only [String.length_append, String.length_mk,
        List.length_replicate, h1, h2, h3, h4]
    rw [List.map_map]
    apply List.Nodup.map _ (List.nodup_range 50)
    intro i j hij
    simp only [Function.comp_apply] at hij
    have hl := congrArg String.length hij
    rw [hkeylen i, hkeylen j] at hl
    omega
  have hstr : nodupStr ((((List.range 50).map (fun i : ℕ =>
      RelSpec.mk "a" "r" "b" (i : ℝ) (String.mk (List.replicate i 'x'))))).map
      (specBridge ⟨defaultTopology, fun _ => 0⟩ (fun _ => (0, 0, 0)))) := by
    unfold nodupStr
    rw [List.map_map, List.map_map]
    apply List.Nodup.map _ (List.nodup_range 50)
    intro i j hij
    simp only [Function.comp_apply] at hij
    have e1 : (specBridge ⟨defaultTopology, fun _ => 0⟩ (fun _ => (0, 0, 0))
        (RelSpec.mk "a" "r" "b" (i : ℝ)
          (String.mk (List.replicate i 'x')))).strength = (i : ℝ) :=
      max_eq_right (Nat.cast_nonneg i)
    have e2 : (specBridge ⟨defaultTopology, fun _ => 0⟩ (fun _ => (0, 0, 0))
        (RelSpec.mk "a" "r" "b" (j : ℝ)
          (String.mk (List.replicate j 'x')))).strength = (j : ℝ) :=
      max_eq_right (Nat.cast_nonneg j)
    rw [e1, e2] at hij
    exact_mod_cast hij
  have hnn : ∀ sp ∈ ((List.range 50).map (fun i : ℕ =>
      RelSpec.mk "a" "r" "b" (i : ℝ) (String.mk (List.replicate i 'x')))),
      0 ≤ sp.strength := by
    intro sp hsp
    obtain ⟨i, -, rfl⟩ := List.mem_map.mp hsp
    exact Nat.cast_nonneg i
  have h := C8_capacity_eviction ⟨defaultTopology, fun _ => 0⟩
    (fun _ => (0, 0, 0)) 0
    ((List.range 50).map (fun i : ℕ => RelSpec.mk "a" "r" "b" (i : ℝ)
      (String.mk (List.replicate i 'x'))))
    hlen hparts hkeys hstr hnn
  have hinit : GodelField.init.bridges.length ≤ GodelField.init.max_bridges := by
    show (0 : ℕ) ≤ 4096
    omega
  exact ⟨hlen, h.1, hinit,
    h.2.2 GodelField.init "s" "rel" "o" 1 "user" hinit⟩

end Dephaze
